import Mathlib

/-!
Shallow embedding of the `rust-ray-tracer` repository core, and proofs
settling the frozen claims about it.

Modelling conventions:
* `f64` scalars are modelled as real numbers (`ℝ`).  Floating-point rounding
  is not modelled; all arithmetic is exact, matching the spec's reading of the
  algorithms "within floating-point tolerance".
* Interval and bounding-box endpoints are modelled as `EReal`, because the
  code materially uses `f64::INFINITY` / `f64::NEG_INFINITY` there
  (`Interval::empty`, `Interval::universe`, `BoundingBox::empty`, the
  radiance query interval).  `EReal` division/multiplication conventions at
  the non-IEEE junk points (`0 * ∞`, division by zero) are noted where they
  could matter; theorems carry hypotheses keeping them in the faithful regime.
* Trait objects (`Arc<dyn Hittable>`, `Arc<dyn Material>`, `Arc<dyn Texture>`)
  are modelled as an inductive scene-node type `Node`, an inductive `Mat`,
  and a plain function type `Texture`.
* The process-wide random generator is modelled by passing each random draw
  as an explicit oracle argument (`urand` on a constant medium, the `u`
  argument of `Dielectric::scatter`); claims about randomised code are
  quantified over every value of the draw.
-/

namespace RayTracer

noncomputable section

/-! ## Math core: `src/core/vec3.rs` -/

/-- Model of `Vec3(pub f64, pub f64, pub f64)`. -/
@[ext]
structure Vec3 where
  x : ℝ
  y : ℝ
  z : ℝ

instance : Add Vec3 := ⟨fun v w => ⟨v.x + w.x, v.y + w.y, v.z + w.z⟩⟩
instance : Sub Vec3 := ⟨fun v w => ⟨v.x - w.x, v.y - w.y, v.z - w.z⟩⟩
instance : Neg Vec3 := ⟨fun v => ⟨-v.x, -v.y, -v.z⟩⟩
instance : Mul Vec3 := ⟨fun v w => ⟨v.x * w.x, v.y * w.y, v.z * w.z⟩⟩
instance : HMul Vec3 ℝ Vec3 := ⟨fun v s => ⟨v.x * s, v.y * s, v.z * s⟩⟩
instance : HMul ℝ Vec3 Vec3 := ⟨fun s v => ⟨s * v.x, s * v.y, s * v.z⟩⟩
instance : HDiv Vec3 ℝ Vec3 := ⟨fun v s => ⟨v.x / s, v.y / s, v.z / s⟩⟩

@[simp] theorem Vec3.add_def (v w : Vec3) :
    v + w = ⟨v.x + w.x, v.y + w.y, v.z + w.z⟩ := rfl

@[simp] theorem Vec3.sub_def (v w : Vec3) :
    v - w = ⟨v.x - w.x, v.y - w.y, v.z - w.z⟩ := rfl

@[simp] theorem Vec3.neg_def (v : Vec3) : -v = ⟨-v.x, -v.y, -v.z⟩ := rfl

@[simp] theorem Vec3.mul_def (v w : Vec3) :
    v * w = ⟨v.x * w.x, v.y * w.y, v.z * w.z⟩ := rfl

@[simp] theorem Vec3.smul_def (v : Vec3) (s : ℝ) :
    v * s = ⟨v.x * s, v.y * s, v.z * s⟩ := rfl

@[simp] theorem Vec3.smul_left_def (s : ℝ) (v : Vec3) :
    s * v = ⟨s * v.x, s * v.y, s * v.z⟩ := rfl

@[simp] theorem Vec3.div_def (v : Vec3) (s : ℝ) :
    v / s = ⟨v.x / s, v.y / s, v.z / s⟩ := rfl

/-- `Vec3::dot`. -/
def Vec3.dot (v w : Vec3) : ℝ := v.x * w.x + v.y * w.y + v.z * w.z

/-- `Vec3::cross`. -/
def Vec3.cross (v w : Vec3) : Vec3 :=
  ⟨v.y * w.z - v.z * w.y, v.z * w.x - v.x * w.z, v.x * w.y - v.y * w.x⟩

/-- `Vec3::length_squared`. -/
def Vec3.length_squared (v : Vec3) : ℝ := v.x * v.x + v.y * v.y + v.z * v.z

/-- `Vec3::length`. -/
def Vec3.length (v : Vec3) : ℝ := Real.sqrt v.length_squared

/-- `Vec3::unit` (divides by the length; the caller must avoid zero-length
vectors, where the model returns the zero vector while IEEE yields NaN). -/
def Vec3.unit (v : Vec3) : Vec3 := v / v.length

/-- `Vec3::reflect`. -/
def Vec3.reflect (v normal : Vec3) : Vec3 :=
  v - normal * (2.0 : ℝ) * Vec3.dot v normal

/-- `Vec3::refract`. -/
def Vec3.refract (v normal : Vec3) (etai_over_etat : ℝ) : Vec3 :=
  let cos_theta := min (Vec3.dot (-v) normal) 1.0
  let r_out_perp := (v + normal * cos_theta) * etai_over_etat
  let r_out_parallel :=
    normal * (-Real.sqrt |1.0 - r_out_perp.length_squared|)
  r_out_perp + r_out_parallel

/-- Component access `Vec3::index` (out-of-range is impossible at `Fin 3`). -/
def Vec3.get (v : Vec3) : Fin 3 → ℝ
  | 0 => v.x
  | 1 => v.y
  | 2 => v.z

/-- `point`/`color` constructor helpers. -/
def vec3 (a b c : ℝ) : Vec3 := ⟨a, b, c⟩

/-! ## Math core: `src/core/interval.rs`.  Endpoints live in `EReal` because
the code stores `f64::INFINITY` / `f64::NEG_INFINITY` in them. -/

/-- Model of `Interval { start: f64, end: f64 }`; the `end` field is spelled
`end_` because `end` is a Lean keyword. -/
structure Interval where
  start : EReal
  end_ : EReal

/-- `Interval::empty`: `[+inf, -inf]`. -/
def Interval.empty : Interval := ⟨⊤, ⊥⟩

/-- `Interval::universe`: `[-inf, +inf]`. -/
def Interval.universe : Interval := ⟨⊥, ⊤⟩

/-- `Interval::new`. -/
def Interval.new (min max : EReal) : Interval := ⟨min, max⟩

/-- `Interval::from_range`. -/
def Interval.fromRange (start end_ : EReal) : Interval := ⟨start, end_⟩

/-- `Interval::from_pair`: pairwise union. -/
def Interval.fromPair (a b : Interval) : Interval :=
  ⟨min a.start b.start, max a.end_ b.end_⟩

/-- `Interval::size`. -/
def Interval.size (i : Interval) : EReal := i.end_ - i.start

/-- `Interval::contains` (inclusive), for a finite query value. -/
def Interval.contains (i : Interval) (x : ℝ) : Prop :=
  i.start ≤ (x : EReal) ∧ (x : EReal) ≤ i.end_

/-- `Interval::surrounds` (exclusive), for a finite query value. -/
def Interval.surrounds (i : Interval) (x : ℝ) : Prop :=
  i.start < (x : EReal) ∧ (x : EReal) < i.end_

instance (i : Interval) (x : ℝ) : Decidable (i.contains x) := by
  unfold Interval.contains; infer_instance

instance (i : Interval) (x : ℝ) : Decidable (i.surrounds x) := by
  unfold Interval.surrounds; infer_instance

/-- `Interval::expand`. -/
def Interval.expand (i : Interval) (delta : ℝ) : Interval :=
  ⟨i.start - (delta : EReal), i.end_ + (delta : EReal)⟩

/-! ## `src/core/rays.rs` -/

/-- Model of `Ray { origin, direction }`. -/
structure Ray where
  origin : Vec3
  direction : Vec3

/-- `Ray::at`. -/
def Ray.at (r : Ray) (t : ℝ) : Vec3 := r.origin + r.direction * t

/-! ## `src/models/bounds.rs`: `BoundingBox` -/

/-- Model of `BoundingBox { intervals: [Interval; 3] }`. -/
structure BoundingBox where
  intervals : Fin 3 → Interval

/-- `BoundingBox::empty`. -/
def BoundingBox.empty : BoundingBox := ⟨fun _ => Interval.empty⟩

/-- `BoundingBox::pad_min`: each axis whose size is below `0.0001` is expanded
by that delta.  The three sequential `if`s of the source act independently on
the three axes. -/
def BoundingBox.padMin (b : BoundingBox) : BoundingBox :=
  ⟨fun i =>
    if (b.intervals i).size < ((0.0001 : ℝ) : EReal) then
      (b.intervals i).expand 0.0001
    else b.intervals i⟩

/-- `BoundingBox::new`. -/
def BoundingBox.new (x y z : Interval) : BoundingBox :=
  BoundingBox.padMin ⟨![x, y, z]⟩

/-- `BoundingBox::from_points`. -/
def BoundingBox.fromPoints (a b : Vec3) : BoundingBox :=
  BoundingBox.new
    (Interval.new ((min a.x b.x : ℝ) : EReal) ((max a.x b.x : ℝ) : EReal))
    (Interval.new ((min a.y b.y : ℝ) : EReal) ((max a.y b.y : ℝ) : EReal))
    (Interval.new ((min a.z b.z : ℝ) : EReal) ((max a.z b.z : ℝ) : EReal))

/-- `BoundingBox::from_boxes`. -/
def BoundingBox.fromBoxes (a b : BoundingBox) : BoundingBox :=
  BoundingBox.new
    (Interval.fromPair (a.intervals 0) (b.intervals 0))
    (Interval.fromPair (a.intervals 1) (b.intervals 1))
    (Interval.fromPair (a.intervals 2) (b.intervals 2))

/-- `BoundingBox::longest_axis`. -/
def BoundingBox.longestAxis (b : BoundingBox) : Fin 3 :=
  if (b.intervals 0).size > (b.intervals 1).size then
    (if (b.intervals 0).size > (b.intervals 2).size then 0 else 2)
  else
    (if (b.intervals 1).size > (b.intervals 2).size then 1 else 2)

/-- One axis step of the slab test `impl Bounds for BoundingBox`: clips the
running interval `t` against the entry/exit parameters of axis `i`.
`adinv` is a real number; at `direction[i] = 0` the model takes `1/0 = 0`
(Lean convention) where IEEE produces `±inf` — theorems that depend on the
slab test either use nonzero direction components or hypotheses stated
against this same model. -/
def BoundingBox.slabAxis (b : BoundingBox) (ray : Ray)
    (t : Interval) (i : Fin 3) : Interval :=
  let ax := b.intervals i
  let adinv : ℝ := 1.0 / ray.direction.get i
  let t0 : EReal := (ax.start - ((ray.origin.get i : ℝ) : EReal)) * (adinv : EReal)
  let t1 : EReal := (ax.end_ - ((ray.origin.get i : ℝ) : EReal)) * (adinv : EReal)
  Interval.new (max t.start (min t0 t1)) (min t.end_ (max t0 t1))

/-- The slab test `Bounds::hit` for `BoundingBox`.  The source's
`let t = Interval::new(..)` inside the loop body shadows the parameter only
for the remainder of that iteration, so each axis clips the **original**
query interval independently; the test answers `false` as soon as one
axis's clip of the original interval degenerates. -/
def BoundingBox.slabHit (b : BoundingBox) (ray : Ray)
    (t : Interval) : Bool :=
  let ta := b.slabAxis ray t 0
  if ta.size ≤ 0 then false
  else
    let tb := b.slabAxis ray t 1
    if tb.size ≤ 0 then false
    else
      let tc := b.slabAxis ray t 2
      if tc.size ≤ 0 then false
      else true

/-! ## `src/surfaces/textures.rs` and `src/surfaces/materials.rs` -/

/-- Model of `dyn Texture` as its `value(u, v, p)` capability. -/
def Texture : Type := ℝ → ℝ → Vec3 → Vec3

/-- Model of the closed `dyn Material` variant set. -/
inductive Mat where
  | lambertian (texture : Texture)
  | metal (albedo : Vec3) (fuzz : ℝ)
  | dielectric (refraction_index : ℝ)
  | invisible
  | diffuseLight (texture : Texture)
  | isotropic (texture : Texture)

/-- `Metal::new`: keeps `fuzz` when `fuzz < 1.0`, otherwise stores `1.0`. -/
def metalNew (albedo : Vec3) (fuzz : ℝ) : Mat :=
  if fuzz < 1.0 then Mat.metal albedo fuzz else Mat.metal albedo 1.0

/-- Fuzz stored in a `Mat.metal`; `0` on other variants (unreachable here). -/
def Mat.fuzzOf : Mat → ℝ
  | .metal _ fuzz => fuzz
  | _ => 0

/-- `Dielectric::reflectance`: Schlick's approximation. -/
def dielectricReflectance (cosine refraction_index : ℝ) : ℝ :=
  let r0 := ((1.0 - refraction_index) / (1.0 + refraction_index)) ^ (2 : ℕ)
  r0 + (1.0 - r0) * (1.0 - cosine) ^ (5 : ℕ)

/-! ## `src/models/hittable.rs`: `HitRecord` -/

/-- Model of `HitRecord`. -/
structure HitRecord where
  point : Vec3
  normal : Vec3
  t : ℝ
  front_face : Bool
  u : ℝ
  v : ℝ
  material : Mat
  emitted : Vec3

/-- `HitRecord::new`: orients the normal against the incoming ray. -/
def HitRecord.new (ray : Ray) (t : ℝ) (point normal : Vec3)
    (material : Mat) : HitRecord :=
  let front_face := Vec3.dot ray.direction normal < 0.0
  { point := point
    normal := if front_face then normal else -normal
    t := t
    front_face := decide front_face
    u := 0.0
    v := 0.0
    material := material
    emitted := vec3 0 0 0 }

/-- `HitRecord::set_uv`. -/
def HitRecord.setUv (rec : HitRecord) (u v : ℝ) : HitRecord :=
  { rec with u := u, v := v }

/-- `Dielectric::scatter` from `src/surfaces/materials.rs`; `u` is the
oracle value of the `rand::random()` draw. -/
def dielectricScatter (refraction_index : ℝ) (u : ℝ) (ray : Ray)
    (hit : HitRecord) : Option (Ray × Vec3) :=
  let attenuation := vec3 1.0 1.0 1.0
  let refraction_ratio :=
    if hit.front_face then 1.0 / refraction_index else refraction_index
  let cos_theta := min (Vec3.dot (-ray.direction) hit.normal) 1.0
  let sin_theta := Real.sqrt (1.0 - cos_theta * cos_theta)
  let cannot_refract := refraction_ratio * sin_theta > 1.0
  if cannot_refract ∨ dielectricReflectance cos_theta refraction_ratio > u then
    some (⟨hit.point, Vec3.reflect ray.direction.unit hit.normal⟩, attenuation)
  else
    some (⟨hit.point, Vec3.refract ray.direction.unit hit.normal refraction_ratio⟩,
      attenuation)

/-! ## `src/models/shapes.rs` -/

/-- Model of `atan2` (used by `Sphere::get_uv` as `(-z).atan2(x)`); signed
zero is not modelled, `atan2 0 0 = 0`. -/
def atan2 (y x : ℝ) : ℝ :=
  if 0 < x then Real.arctan (y / x)
  else if x < 0 then
    (if 0 ≤ y then Real.arctan (y / x) + Real.pi else Real.arctan (y / x) - Real.pi)
  else
    (if 0 < y then Real.pi / 2 else if y < 0 then -(Real.pi / 2) else 0)

/-- `Sphere::get_uv`. -/
def sphereGetUv (p : Vec3) : ℝ × ℝ :=
  let theta := Real.arccos (-p.y)
  let phi := atan2 (-p.z) p.x + Real.pi
  (phi / (2.0 * Real.pi), theta / Real.pi)

/-- The `let oc` binding of `Sphere::hit`. -/
def sphereOc (center : Vec3) (ray : Ray) : Vec3 := center - ray.origin

/-- The `let a` binding of `Sphere::hit`. -/
def sphereA (ray : Ray) : ℝ := ray.direction.length_squared

/-- The `let h` binding of `Sphere::hit` (half-b form). -/
def sphereH (center : Vec3) (ray : Ray) : ℝ :=
  Vec3.dot ray.direction (sphereOc center ray)

/-- The `let c` binding of `Sphere::hit`. -/
def sphereCc (center : Vec3) (radius : ℝ) (ray : Ray) : ℝ :=
  (sphereOc center ray).length_squared - radius * radius

/-- The `let discriminant` binding of `Sphere::hit`. -/
def sphereDisc (center : Vec3) (radius : ℝ) (ray : Ray) : ℝ :=
  sphereH center ray * sphereH center ray -
    sphereA ray * sphereCc center radius ray

/-- The first candidate root `(h - sqrtd) / a` of `Sphere::hit`. -/
def sphereRoot1 (center : Vec3) (radius : ℝ) (ray : Ray) : ℝ :=
  (sphereH center ray - Real.sqrt (sphereDisc center radius ray)) / sphereA ray

/-- The second candidate root `(h + sqrtd) / a` of `Sphere::hit`. -/
def sphereRoot2 (center : Vec3) (radius : ℝ) (ray : Ray) : ℝ :=
  (sphereH center ray + Real.sqrt (sphereDisc center radius ray)) / sphereA ray

/-- The hit record `Sphere::hit` builds at parameter `root`. -/
def sphereRecord (center : Vec3) (radius : ℝ) (material : Mat) (ray : Ray)
    (root : ℝ) : HitRecord :=
  let point := ray.at root
  let normal := (point - center) / radius
  let uv := sphereGetUv normal
  (HitRecord.new ray root point normal material).setUv uv.1 uv.2

/-- `Sphere::hit`: half-b quadratic, nearest root strictly inside the range
(the source's `let` bindings are the named definitions above). -/
def sphereHit (center : Vec3) (radius : ℝ) (material : Mat)
    (ray : Ray) (t_range : Interval) : Option HitRecord :=
  if sphereDisc center radius ray < 0.0 then none
  else
    let root? : Option ℝ :=
      if ¬ t_range.surrounds (sphereRoot1 center radius ray) then
        (if ¬ t_range.surrounds (sphereRoot2 center radius ray) then none
         else some (sphereRoot2 center radius ray))
      else some (sphereRoot1 center radius ray)
    match root? with
    | none => none
    | some root => some (sphereRecord center radius material ray root)

/-- `Triangle::is_interior`. -/
def triangleIsInterior (alpha beta : ℝ) : Option (ℝ × ℝ) :=
  if alpha < 0.0 ∨ beta < 0.0 ∨ alpha + beta > 1.0 then none
  else some (alpha, beta)

/-- The standalone `impl Hittable for Triangle` hit routine (the `_t_range`
argument is unused in the source). -/
def triangleHit (vertex : Vec3 × Vec3 × Vec3) (material : Mat)
    (ray : Ray) (_t_range : Interval) : Option HitRecord :=
  let normal := Vec3.cross (vertex.2.1 - vertex.1) (vertex.2.2 - vertex.1)
  let p := ray.direction + ray.origin
  let normal_a := Vec3.cross (vertex.2.2 - vertex.2.1) (p - vertex.2.1)
  let normal_b := Vec3.cross (vertex.1 - vertex.2.2) (p - vertex.2.2)
  let normal_c := Vec3.cross (vertex.2.1 - vertex.1) (p - vertex.1)
  let bary : Vec3 :=
    (⟨Vec3.dot normal normal_a, Vec3.dot normal normal_b,
      Vec3.dot normal normal_c⟩ : Vec3) / normal.length_squared
  if 0.0 < bary.x ∧ 0.0 < bary.y ∧ 0.0 < bary.z then
    some (HitRecord.new ray 0.0 p normal material)
  else none

/-- `Plane::hit`: linear solve, near-parallel rejection, `Invisible` tag. -/
def planeHit (point normal : Vec3) (ray : Ray) (t_range : Interval) :
    Option HitRecord :=
  let d := Vec3.dot point normal
  let denominator := Vec3.dot ray.direction normal
  if |denominator| < 1e-8 then none
  else
    let t := (d - Vec3.dot ray.origin normal) / denominator
    if ¬ t_range.contains t then none
    else some (HitRecord.new ray t (ray.at t) normal Mat.invisible)

/-- `Parallelogram::is_interior`. -/
def parallelogramIsInterior (alpha beta : ℝ) : Option (ℝ × ℝ) :=
  if ¬ (Interval.new ((0 : ℝ) : EReal) ((1 : ℝ) : EReal)).contains alpha ∨
     ¬ (Interval.new ((0 : ℝ) : EReal) ((1 : ℝ) : EReal)).contains beta then none
  else some (alpha, beta)

/-- `impl Hittable for Parallelogram`: plane intersection followed by the 2D
interior test against the precomputed `w` vector. -/
def parallelogramHit (corner : Vec3) (sides : Vec3 × Vec3) (normal w : Vec3)
    (material : Mat) (ray : Ray) (t_range : Interval) : Option HitRecord :=
  match planeHit corner normal ray t_range with
  | none => none
  | some record =>
    let p := record.point - corner
    let alpha := Vec3.dot w (Vec3.cross p sides.2)
    let beta := Vec3.dot w (Vec3.cross sides.1 p)
    match parallelogramIsInterior alpha beta with
    | none => none
    | some uv =>
      some ((HitRecord.new ray record.t record.point normal material).setUv
        uv.1 uv.2)

/-- `impl Hittable for Planar`, `Triangle` case: plane-then-barycentric. -/
def planarTriangleHit (vertex : Vec3 × Vec3 × Vec3) (normal : Vec3)
    (material : Mat) (ray : Ray) (t_range : Interval) : Option HitRecord :=
  match planeHit vertex.1 normal ray t_range with
  | none => none
  | some record =>
    let p := record.point - vertex.1
    let w := normal / Vec3.dot normal normal
    let u := vertex.2.1 - vertex.1
    let v := vertex.2.2 - vertex.1
    let alpha := Vec3.dot w (Vec3.cross p v)
    let beta := Vec3.dot w (Vec3.cross u p)
    match triangleIsInterior alpha beta with
    | none => none
    | some uv =>
      some ((HitRecord.new ray record.t record.point normal material).setUv
        uv.1 uv.2)

/-- `impl Hittable for Planar`, `Parallelogram` case. -/
def planarParallelogramHit (corner : Vec3) (sides : Vec3 × Vec3)
    (normal w : Vec3) (material : Mat) (ray : Ray) (t_range : Interval) :
    Option HitRecord :=
  match planeHit corner normal ray t_range with
  | none => none
  | some record =>
    let p := record.point - corner
    let alpha := Vec3.dot w (Vec3.cross p sides.2)
    let beta := Vec3.dot w (Vec3.cross sides.1 p)
    match parallelogramIsInterior alpha beta with
    | none => none
    | some uv =>
      some ((HitRecord.new ray record.t record.point normal material).setUv
        uv.1 uv.2)

/-! ## The scene-node variant set.

`Arc<dyn Hittable>` is modelled as the inductive `Node`; each constructor
carries exactly the fields of the corresponding Rust struct (precomputed
fields such as stored normals and bounding boxes included).  `medium` also
carries `urand`, the oracle value of the `rand::random::<f64>()` draw its
`hit` performs. -/
inductive Node where
  | sphere (center : Vec3) (radius : ℝ) (material : Mat) (bounds : BoundingBox)
  | triangle (vertex : Vec3 × Vec3 × Vec3) (normal : Vec3) (material : Mat)
      (bounds : BoundingBox)
  | parallelogram (corner : Vec3) (sides : Vec3 × Vec3) (normal : Vec3)
      (w : Vec3) (material : Mat) (bounds : BoundingBox)
  | plane (point : Vec3) (normal : Vec3)
  | planarTriangle (vertex : Vec3 × Vec3 × Vec3) (normal : Vec3)
      (material : Mat) (bounds : BoundingBox)
  | planarParallelogram (corner : Vec3) (sides : Vec3 × Vec3) (normal : Vec3)
      (w : Vec3) (material : Mat) (bounds : BoundingBox)
  | list (objects : List Node) (bounds : BoundingBox)
  | bnode (bounds : BoundingBox) (left right : Node)
  | translation (object : Node) (offset : Vec3) (bounds : BoundingBox)
  | rotateY (object : Node) (sin_theta cos_theta : ℝ) (bounds : BoundingBox)
  | medium (boundary : Node) (neg_inv_density : ℝ) (phase_function : Mat)
      (urand : ℝ)

/-- The match in `BoundNode::hit` combining the two child results. -/
def combineHits : Option HitRecord → Option HitRecord → Option HitRecord
  | some a, some b => if a.t < b.t then some a else some b
  | some a, none => some a
  | none, some b => some b
  | none, none => none

mutual

/-- `Hittable::hit` dispatch over the scene-node variants; each branch is the
corresponding `impl Hittable for ...::hit` body. -/
def nodeHit : Node → Ray → Interval → Option HitRecord
  | .sphere center radius material _, ray, t =>
    sphereHit center radius material ray t
  | .triangle vertex _ material _, ray, t => triangleHit vertex material ray t
  | .parallelogram corner sides normal w material _, ray, t =>
    parallelogramHit corner sides normal w material ray t
  | .plane point normal, ray, t => planeHit point normal ray t
  | .planarTriangle vertex normal material _, ray, t =>
    planarTriangleHit vertex normal material ray t
  | .planarParallelogram corner sides normal w material _, ray, t =>
    planarParallelogramHit corner sides normal w material ray t
  | .list objects _, ray, t => listScanHit objects ray t.start t.end_ none
  | .bnode bounds left right, ray, t =>
    if bounds.slabHit ray t then
      combineHits (nodeHit left ray t) (nodeHit right ray t)
    else none
  | .translation object offset _, ray, t =>
    match nodeHit object ⟨ray.origin - offset, ray.direction⟩ t with
    | some rec => some { rec with point := rec.point + offset }
    | none => none
  | .rotateY object sin_theta cos_theta _, ray, t =>
    let origin : Vec3 :=
      ⟨cos_theta * ray.origin.x - sin_theta * ray.origin.z, ray.origin.y,
        sin_theta * ray.origin.x + cos_theta * ray.origin.z⟩
    let direction : Vec3 :=
      ⟨cos_theta * ray.direction.x - sin_theta * ray.direction.z,
        ray.direction.y,
        sin_theta * ray.direction.x + cos_theta * ray.direction.z⟩
    match nodeHit object ⟨origin, direction⟩ t with
    | some rec =>
      some { rec with
        point := ⟨cos_theta * rec.point.x + sin_theta * rec.point.z,
          rec.point.y, -sin_theta * rec.point.x + cos_theta * rec.point.z⟩
        normal := ⟨cos_theta * rec.normal.x + sin_theta * rec.normal.z,
          rec.normal.y, -sin_theta * rec.normal.x + cos_theta * rec.normal.z⟩ }
    | none => none
  | .medium boundary neg_inv_density phase_function urand, ray, t =>
    match nodeHit boundary ray Interval.universe with
    | none => none
    | some rec1 =>
      match nodeHit boundary ray
          (Interval.fromRange ((rec1.t + 0.0001 : ℝ) : EReal) ⊤) with
      | none => none
      | some rec2 =>
        let rec1t : EReal := max ((rec1.t : ℝ) : EReal) t.start
        let rec2t : EReal := min ((rec2.t : ℝ) : EReal) t.end_
        if rec1t ≥ rec2t then none
        else
          let rec1t' := max rec1t 0
          let ray_length := ray.direction.length
          let distance_inside_boundary : EReal :=
            (rec2t - rec1t') * ((ray_length : ℝ) : EReal)
          let hit_distance := neg_inv_density * Real.log urand
          if ((hit_distance : ℝ) : EReal) > distance_inside_boundary then none
          else
            let th := rec1t'.toReal + hit_distance / ray_length
            some (HitRecord.new ray th (ray.at th) (vec3 1.0 0.0 0.0)
              phase_function)

/-- The loop body of `HittableList::hit`: scans the objects in order,
narrowing the query end to the closest hit parameter found so far. -/
def listScanHit : List Node → Ray → EReal → EReal → Option HitRecord →
    Option HitRecord
  | [], _, _, _, acc => acc
  | object :: rest, ray, s, closest, acc =>
    match nodeHit object ray (Interval.fromRange s closest) with
    | some rec => listScanHit rest ray s ((rec.t : ℝ) : EReal) (some rec)
    | none => listScanHit rest ray s closest acc

end

/-- `Hittable::bound` dispatch: every variant returns its stored box, except
`Plane` (the empty box) and `ConstantMedium` (its boundary's box). -/
def nodeBound : Node → BoundingBox
  | .sphere _ _ _ bounds => bounds
  | .triangle _ _ _ bounds => bounds
  | .parallelogram _ _ _ _ _ bounds => bounds
  | .plane _ _ => BoundingBox.empty
  | .planarTriangle _ _ _ bounds => bounds
  | .planarParallelogram _ _ _ _ _ bounds => bounds
  | .list _ bounds => bounds
  | .bnode bounds _ _ => bounds
  | .translation _ _ bounds => bounds
  | .rotateY _ _ _ bounds => bounds
  | .medium boundary _ _ _ => nodeBound boundary

/-! ## Constructors of the scene-node structs -/

instance : HAdd Interval ℝ Interval :=
  ⟨fun i r => ⟨i.start + (r : EReal), i.end_ + (r : EReal)⟩⟩

instance : HAdd BoundingBox Vec3 BoundingBox :=
  ⟨fun b v => ⟨![b.intervals 0 + v.x, b.intervals 1 + v.y, b.intervals 2 + v.z]⟩⟩

/-- `Sphere::new` (no radius validation is performed by the source). -/
def sphereNew (center : Vec3) (radius : ℝ) (material : Mat) : Node :=
  Node.sphere center radius material
    (BoundingBox.fromPoints (center - vec3 radius radius radius)
      (center + vec3 radius radius radius))

/-- Radius stored in a `Node.sphere`; `0` on other variants. -/
def Node.radiusOf : Node → ℝ
  | .sphere _ radius _ _ => radius
  | _ => 0

/-- `Triangle::new`. -/
def triangleNew (vertex : Vec3 × Vec3 × Vec3) (material : Mat) : Node :=
  let normal := Vec3.cross (vertex.2.1 - vertex.1) (vertex.2.2 - vertex.1)
  let lo := vec3 (min (min vertex.1.x vertex.2.1.x) vertex.2.2.x)
    (min (min vertex.1.y vertex.2.1.y) vertex.2.2.y)
    (min (min vertex.1.z vertex.2.1.z) vertex.2.2.z)
  let hi := vec3 (max (max vertex.1.x vertex.2.1.x) vertex.2.2.x)
    (max (max vertex.1.y vertex.2.1.y) vertex.2.2.y)
    (max (max vertex.1.z vertex.2.1.z) vertex.2.2.z)
  Node.triangle vertex normal material (BoundingBox.fromPoints lo hi)

/-- `Parallelogram::new`. -/
def parallelogramNew (corner : Vec3) (sides : Vec3 × Vec3) (material : Mat) :
    Node :=
  let n := Vec3.cross sides.1 sides.2
  let normal := n.unit
  let w := n / Vec3.dot n n
  let diagonal_bound_1 :=
    BoundingBox.fromPoints corner (corner + sides.1 + sides.2)
  let diagonal_bound_2 :=
    BoundingBox.fromPoints (corner + sides.1) (corner + sides.2)
  Node.parallelogram corner sides normal w material
    (BoundingBox.fromBoxes diagonal_bound_1 diagonal_bound_2)

/-- `HittableList::new` followed by `add` for each object, in order (each
`add` unions the object's box into the stored bounds). -/
def hittableListOf (objects : List Node) : Node :=
  Node.list objects
    (objects.foldl (fun acc o => BoundingBox.fromBoxes acc (nodeBound o))
      BoundingBox.empty)

/-- `Translation::new`. -/
def translationNew (object : Node) (offset : Vec3) : Node :=
  Node.translation object offset (nodeBound object + offset)

/-- One iteration of the corner loop in `RotateY::new`.  The coefficients
`ijk` range over `{0,1}³`; crucially the corner coordinates are read from the
box as **already mutated** by the previous iterations, exactly as in the
source (the loop body writes `bounds.intervals[c]` in place). -/
def rotateYCornerStep (sin_theta cos_theta : ℝ) (b : BoundingBox)
    (ijk : ℝ × ℝ × ℝ) : BoundingBox :=
  let x : EReal := ((ijk.1 : ℝ) : EReal) * (b.intervals 0).end_ +
    (((1 - ijk.1 : ℝ)) : EReal) * (b.intervals 0).start
  let y : EReal := ((ijk.2.1 : ℝ) : EReal) * (b.intervals 1).end_ +
    (((1 - ijk.2.1 : ℝ)) : EReal) * (b.intervals 1).start
  let z : EReal := ((ijk.2.2 : ℝ) : EReal) * (b.intervals 2).end_ +
    (((1 - ijk.2.2 : ℝ)) : EReal) * (b.intervals 2).start
  let new_x : EReal := (cos_theta : EReal) * x + (sin_theta : EReal) * z
  let new_z : EReal := ((-sin_theta : ℝ) : EReal) * x + (cos_theta : EReal) * z
  let tester : Fin 3 → EReal := ![new_x, y, new_z]
  ⟨fun c => Interval.fromPair (b.intervals c)
    (Interval.new (tester c) (tester c))⟩

/-- The corner coefficients in the loop order of `RotateY::new`
(`i` outermost, `k` innermost). -/
def rotateYCorners : List (ℝ × ℝ × ℝ) :=
  [(0, 0, 0), (0, 0, 1), (0, 1, 0), (0, 1, 1),
   (1, 0, 0), (1, 0, 1), (1, 1, 0), (1, 1, 1)]

/-- The bounding box computed by `RotateY::new`: starts from the wrapped
object's box and folds in each (progressively recomputed) rotated corner. -/
def rotateYBounds (b : BoundingBox) (sin_theta cos_theta : ℝ) : BoundingBox :=
  rotateYCorners.foldl (rotateYCornerStep sin_theta cos_theta) b

/-- `RotateY::new`. -/
def rotateYNew (object : Node) (angle : ℝ) : Node :=
  let radians := angle * (Real.pi / 180)
  let sin_theta := Real.sin radians
  let cos_theta := Real.cos radians
  Node.rotateY object sin_theta cos_theta
    (rotateYBounds (nodeBound object) sin_theta cos_theta)

/-- `ConstantMedium::new`; `urand` is the oracle for the free-flight draw. -/
def constantMediumNew (boundary : Node) (density : ℝ) (texture : Texture)
    (urand : ℝ) : Node :=
  Node.medium boundary (-1.0 / density) (Mat.isotropic texture) urand

/-! ## `src/models/bounds.rs`: `BoundNode` over abstract `dyn Hittable`.

`BoundNode::from_objects` and `HittableList::hit` operate on
`Arc<dyn Hittable>` values; the trait is modelled by its two capabilities. -/

/-- Model of an `Arc<dyn Hittable>` trait object: its `hit` and `bound`
capabilities. -/
structure HObj where
  hit : Ray → Interval → Option HitRecord
  bound : BoundingBox

/-- A concrete scene node viewed as a trait object. -/
def Node.toHObj (n : Node) : HObj := ⟨nodeHit n, nodeBound n⟩

/-- The loop body of `HittableList::hit`, over trait objects. -/
def hlistScan : List HObj → Ray → EReal → EReal → Option HitRecord →
    Option HitRecord
  | [], _, _, _, acc => acc
  | object :: rest, ray, s, closest, acc =>
    match object.hit ray (Interval.fromRange s closest) with
    | some rec => hlistScan rest ray s ((rec.t : ℝ) : EReal) (some rec)
    | none => hlistScan rest ray s closest acc

/-- `HittableList::hit` over trait objects: linear scan narrowing the query
end to the closest `t` found so far, starting from `t.end`. -/
def hlistHit (objects : List HObj) (ray : Ray) (t : Interval) :
    Option HitRecord :=
  hlistScan objects ray t.start t.end_ none

/-- The shape of a built `BoundNode` tree: internal nodes carry the stored
box and two children which are either further `BoundNode`s or the original
leaf objects. -/
inductive BTree where
  | leaf (o : HObj)
  | node (bounds : BoundingBox) (left right : BTree)

/-- `BoundNode::hit`: slab-test the stored box, then query both children
with the same (unnarrowed) interval and keep the smaller `t`. -/
def btHit : BTree → Ray → Interval → Option HitRecord
  | .leaf o, ray, t => o.hit ray t
  | .node bounds left right, ray, t =>
    if bounds.slabHit ray t then
      combineHits (btHit left ray t) (btHit right ray t)
    else none

/-- The union bounding box computed at the top of `from_objects`. -/
def objectsBounds (objects : List HObj) : BoundingBox :=
  objects.foldl (fun acc o => BoundingBox.fromBoxes acc o.bound)
    BoundingBox.empty

/-- The comparator of the `sort_by` call in `from_objects` (total on `EReal`,
so the `partial_cmp(..).unwrap()` never panics in the model). -/
def bvhLe (axis : Fin 3) (a b : HObj) : Bool :=
  decide ((a.bound.intervals axis).start ≤ (b.bound.intervals axis).start)

/-- `BoundNode::from_objects` on the slice `objects[range]`, modelled on the
list of objects in the range.  The empty-range `panic!` is modelled as
`none`; a singleton range aliases the single object into both children; three
or more objects are sorted by box start along the longest axis of the union
box and split at the midpoint. -/
def fromObjects (objects : List HObj) : Option BTree :=
  let bounds := objectsBounds objects
  let axis := bounds.longestAxis
  match objects with
  | [] => none
  | [a] => some (BTree.node bounds (BTree.leaf a) (BTree.leaf a))
  | [a, b] => some (BTree.node bounds (BTree.leaf a) (BTree.leaf b))
  | a :: b :: c :: rest =>
    let sorted := (a :: b :: c :: rest).mergeSort (bvhLe axis)
    let mid := (a :: b :: c :: rest).length / 2
    match fromObjects (sorted.take mid), fromObjects (sorted.drop mid) with
    | some left, some right => some (BTree.node bounds left right)
    | _, _ => none
termination_by objects.length
decreasing_by
  · simp [List.length_take, List.length_mergeSort]; omega
  · simp [List.length_drop, List.length_mergeSort]; omega

/-! ## General helper lemmas -/

theorem ereal_coe_mono : Monotone (fun r : ℝ => (r : EReal)) :=
  fun _ _ h => EReal.coe_le_coe_iff.2 h

theorem ereal_coe_min (a b : ℝ) :
    ((min a b : ℝ) : EReal) = min (a : EReal) (b : EReal) :=
  ereal_coe_mono.map_min

theorem ereal_coe_max (a b : ℝ) :
    ((max a b : ℝ) : EReal) = max (a : EReal) (b : EReal) :=
  ereal_coe_mono.map_max

/-! ## Claim C9 -/

/-- Claim C9 (code bug evidence): `Sphere::new` performs no radius
validation; with radius `-1` it silently constructs a sphere node whose
stored radius is `-1` — there is no abort path in `Sphere::new`. -/
theorem sphere_new_accepts_negative_radius :
    (sphereNew (vec3 0 0 0) (-1) Mat.invisible).radiusOf = -1 := rfl

/-! ## Claim C8 -/

/-- Claim C8 counterexample: `Metal::new` with fuzz `-2` stores fuzz `-2`,
which is not in `[0, 1]` — the constructor only clamps from above. -/
theorem metal_new_negative_fuzz_counterexample :
    (metalNew (vec3 1 1 1) (-2)).fuzzOf = -2 ∧
    ¬(0 ≤ (metalNew (vec3 1 1 1) (-2)).fuzzOf) := by
  have h : (metalNew (vec3 1 1 1) (-2)).fuzzOf = -2 := by
    rw [metalNew, if_pos (by norm_num)]; rfl
  exact ⟨h, by rw [h]; norm_num⟩

/-- Claim C8 (amended): for every albedo and fuzz argument, the fuzz stored
by `Metal::new` is at most `1`; arguments strictly below `1` (including
negative ones) are stored unchanged, so no lower clamp to `0` happens. -/
theorem metal_new_fuzz_le_one (albedo : Vec3) (fuzz : ℝ) :
    (metalNew albedo fuzz).fuzzOf ≤ 1 ∧
    (fuzz < 1 → (metalNew albedo fuzz).fuzzOf = fuzz) := by
  have key : (metalNew albedo fuzz).fuzzOf = if fuzz < 1.0 then fuzz else 1.0 := by
    rw [metalNew]; split <;> rfl
  rw [key]
  by_cases h : fuzz < 1.0
  · rw [if_pos h]
    refine ⟨?_, fun _ => rfl⟩
    norm_num at h
    linarith
  · rw [if_neg h]
    refine ⟨by norm_num, fun hlt => ?_⟩
    norm_num at h
    exact absurd hlt (not_lt.2 h)

/-- Claim C8 witness: the amended theorem applied at fuzz `1/2`. -/
theorem metal_new_fuzz_le_one_witness :
    (1 / 2 : ℝ) < 1 ∧ (metalNew (vec3 0 0 0) (1 / 2)).fuzzOf = 1 / 2 :=
  ⟨by norm_num, (metal_new_fuzz_le_one (vec3 0 0 0) (1 / 2)).2 (by norm_num)⟩

/-! ## Claim C4 -/

/-- Claim C4: the standalone `Triangle::hit` ignores the query interval
entirely (the result is the same for any two intervals), and any hit it
reports has parameter `t = 0` and hit point `origin + direction` rather
than a solved ray parameter. -/
theorem triangle_hit_ignores_interval (vertex : Vec3 × Vec3 × Vec3)
    (normal : Vec3) (material : Mat) (bounds : BoundingBox) (ray : Ray)
    (t1 t2 : Interval) :
    nodeHit (Node.triangle vertex normal material bounds) ray t1 =
      nodeHit (Node.triangle vertex normal material bounds) ray t2 ∧
    (∀ rec, nodeHit (Node.triangle vertex normal material bounds) ray t1 =
        some rec → rec.t = 0 ∧ rec.point = ray.origin + ray.direction) := by
  constructor
  · rfl
  · intro rec h
    simp only [nodeHit, triangleHit] at h
    split at h
    · cases h
      refine ⟨by norm_num [HitRecord.new], ?_⟩
      show ((HitRecord.new _ _ (ray.direction + ray.origin) _ _)).point = _
      simp only [HitRecord.new]
      ext <;> simp <;> ring
    · cases h

/-- Claim C4 witness: a concrete triangle and ray that produce a hit; the
reported parameter is `0` and the point is `origin + direction`. -/
theorem triangle_hit_ignores_interval_witness :
    ∃ rec, nodeHit (Node.triangle (vec3 0 0 0, vec3 1 0 0, vec3 0 1 0)
        (vec3 0 0 1) Mat.invisible BoundingBox.empty)
        ⟨vec3 0.2 0.2 (-1), vec3 0 0 1⟩ Interval.universe = some rec ∧
      rec.t = 0 ∧ rec.point = vec3 0.2 0.2 (-1) + vec3 0 0 1 := by
  obtain ⟨rec, hrec⟩ : ∃ rec, nodeHit (Node.triangle
      (vec3 0 0 0, vec3 1 0 0, vec3 0 1 0) (vec3 0 0 1) Mat.invisible
      BoundingBox.empty) ⟨vec3 0.2 0.2 (-1), vec3 0 0 1⟩ Interval.universe =
      some rec := by
    simp only [nodeHit, triangleHit]
    rw [if_pos]
    · exact ⟨_, rfl⟩
    · refine ⟨?_, ?_, ?_⟩ <;>
        (simp only [vec3, Vec3.cross, Vec3.dot, Vec3.length_squared,
          Vec3.add_def, Vec3.sub_def, Vec3.div_def]; norm_num)
  refine ⟨rec, hrec, ?_⟩
  exact (triangle_hit_ignores_interval (vec3 0 0 0, vec3 1 0 0, vec3 0 1 0)
    (vec3 0 0 1) Mat.invisible BoundingBox.empty
    ⟨vec3 0.2 0.2 (-1), vec3 0 0 1⟩ Interval.universe
    Interval.universe).2 rec hrec

/-! ## Claim C10 -/

/-- Claim C10: `Translation::hit` equals the wrapped object's hit on the ray
whose origin is shifted by the negative offset (same direction, same query
interval), with only the record's `point` field then increased by the
offset; `t`, `normal`, `front_face`, `u`, `v`, `material` and `emitted` are
exactly those returned by the wrapped object. -/
theorem translation_hit_shifts_point_only (object : Node) (offset : Vec3)
    (bounds : BoundingBox) (ray : Ray) (t : Interval) :
    nodeHit (Node.translation object offset bounds) ray t =
      Option.map
        (fun rec =>
          { point := rec.point + offset
            normal := rec.normal
            t := rec.t
            front_face := rec.front_face
            u := rec.u
            v := rec.v
            material := rec.material
            emitted := rec.emitted })
        (nodeHit object ⟨ray.origin - offset, ray.direction⟩ t) := by
  simp only [nodeHit]
  cases nodeHit object ⟨ray.origin - offset, ray.direction⟩ t <;> rfl

/-! ## Claim C5 -/

/-- An interval that is ordered and at least `1e-4` thick. -/
def Interval.padded (i : Interval) : Prop :=
  i.start ≤ i.end_ ∧ ((0.0001 : ℝ) : EReal) ≤ i.size

/-- A box whose three axes are ordered and at least `1e-4` thick. -/
def BoundingBox.isPadded (b : BoundingBox) : Prop :=
  ∀ i : Fin 3, (b.intervals i).padded

/-- A well-formed constructor input axis: ordered, start not `+∞`, end not
`−∞` (these are the axes that `pad_min` actually repairs; `empty()`-style
inverted infinite axes stay degenerate, see the counterexample). -/
def Interval.wfInput (i : Interval) : Prop :=
  i.start ≤ i.end_ ∧ i.start ≠ ⊤ ∧ i.end_ ≠ ⊥

theorem padded_of_size_top (i : Interval) (hle : i.start ≤ i.end_)
    (hs : i.size = ⊤) :
    (if i.size < ((0.0001 : ℝ) : EReal) then i.expand 0.0001 else i).padded := by
  rw [hs, if_neg not_top_lt]
  exact ⟨hle, by rw [hs]; exact le_top⟩

theorem interval_pad_padded (i : Interval) (h : i.wfInput) :
    (if i.size < ((0.0001 : ℝ) : EReal) then i.expand 0.0001 else i).padded := by
  obtain ⟨s, e⟩ := i
  obtain ⟨hle, hsT, heB⟩ := h
  revert hle hsT heB
  induction s using EReal.rec <;> induction e using EReal.rec <;>
    intro hle hsT heB
  · exact absurd rfl heB
  · exact padded_of_size_top _ hle (EReal.coe_sub_bot _)
  · exact padded_of_size_top _ hle (EReal.sub_bot (by simp))
  · exact absurd rfl heB
  · rename_i sr er
    have hre : sr ≤ er := EReal.coe_le_coe_iff.1 hle
    have hsz : (Interval.mk (sr : EReal) (er : EReal)).size =
        ((er - sr : ℝ) : EReal) := (EReal.coe_sub er sr).symm
    by_cases hc : er - sr < 0.0001
    · rw [hsz, if_pos (EReal.coe_lt_coe_iff.2 hc)]
      refine ⟨?_, ?_⟩
      · show (sr : EReal) - ((0.0001 : ℝ) : EReal) ≤
          (er : EReal) + ((0.0001 : ℝ) : EReal)
        rw [← EReal.coe_sub, ← EReal.coe_add, EReal.coe_le_coe_iff]
        linarith
      · show ((0.0001 : ℝ) : EReal) ≤
          ((er : EReal) + ((0.0001 : ℝ) : EReal)) -
            ((sr : EReal) - ((0.0001 : ℝ) : EReal))
        rw [← EReal.coe_add, ← EReal.coe_sub, ← EReal.coe_sub,
          EReal.coe_le_coe_iff]
        linarith
    · rw [hsz, if_neg (by rw [EReal.coe_lt_coe_iff]; exact hc)]
      exact ⟨hle, by rw [hsz, EReal.coe_le_coe_iff]; linarith [not_lt.1 hc]⟩
  · exact padded_of_size_top _ hle (EReal.top_sub_coe _)
  · exact absurd rfl hsT
  · exact absurd rfl hsT
  · exact absurd rfl hsT

theorem boundingBox_new_padded (x y z : Interval) (hx : x.wfInput)
    (hy : y.wfInput) (hz : z.wfInput) : (BoundingBox.new x y z).isPadded := by
  intro i
  have hdef : (BoundingBox.new x y z).intervals i =
      if ((![x, y, z] : Fin 3 → Interval) i).size < ((0.0001 : ℝ) : EReal) then
        (![x, y, z] i).expand 0.0001
      else ![x, y, z] i := rfl
  rw [hdef]
  fin_cases i
  · simpa using interval_pad_padded x hx
  · simpa using interval_pad_padded y hy
  · simpa using interval_pad_padded z hz

/-- Claim C5 counterexample: `BoundingBox::empty()` — one of the public
constructors named by the claim — has x-axis interval `[+∞, −∞]`: its start
exceeds its end and its thickness is `−∞`, not at least `1e-4`. -/
theorem bounding_box_empty_counterexample :
    ¬((BoundingBox.empty.intervals 0).start ≤
      (BoundingBox.empty.intervals 0).end_) ∧
    ¬(((0.0001 : ℝ) : EReal) ≤ (BoundingBox.empty.intervals 0).size) := by
  constructor
  · show ¬((⊤ : EReal) ≤ (⊥ : EReal))
    simp
  · show ¬(((0.0001 : ℝ) : EReal) ≤ ((⊥ : EReal) - (⊤ : EReal)))
    rw [EReal.bot_sub]
    simp

/-- Claim C5 (amended): every box produced by `from_points`, and every box
produced by `new`/`from_boxes` whose per-axis input (resp. per-axis pairwise
union of inputs) is ordered with start not `+∞` and end not `−∞`, has on all
three axes `start ≤ end` and thickness at least `1e-4`.  `empty()` itself
violates the claim (see the counterexample): its axes are `[+∞, −∞]` and
`pad_min` cannot repair them. -/
theorem box_constructors_ordered_and_padded :
    (∀ a b : Vec3, (BoundingBox.fromPoints a b).isPadded) ∧
    (∀ x y z : Interval, x.wfInput → y.wfInput → z.wfInput →
      (BoundingBox.new x y z).isPadded) ∧
    (∀ a b : BoundingBox,
      (∀ i : Fin 3,
        (Interval.fromPair (a.intervals i) (b.intervals i)).wfInput) →
      (BoundingBox.fromBoxes a b).isPadded) := by
  have hwf : ∀ u v : ℝ, (Interval.new ((min u v : ℝ) : EReal)
      ((max u v : ℝ) : EReal)).wfInput := by
    intro u v
    exact ⟨EReal.coe_le_coe_iff.2 (min_le_max), EReal.coe_ne_top _,
      EReal.coe_ne_bot _⟩
  refine ⟨?_, ?_, ?_⟩
  · intro a b
    exact boundingBox_new_padded _ _ _ (hwf a.x b.x) (hwf a.y b.y) (hwf a.z b.z)
  · intro x y z hx hy hz
    exact boundingBox_new_padded x y z hx hy hz
  · intro a b h
    exact boundingBox_new_padded _ _ _ (h 0) (h 1) (h 2)

/-- Claim C5 witness: the amended theorem applied to concrete inputs — the
degenerate-but-ordered axis `[0, 0]` is padded to thickness `2e-4`. -/
theorem box_constructors_ordered_and_padded_witness :
    Interval.wfInput ⟨((0 : ℝ) : EReal), ((0 : ℝ) : EReal)⟩ ∧
    (BoundingBox.new ⟨((0 : ℝ) : EReal), ((0 : ℝ) : EReal)⟩
      ⟨((0 : ℝ) : EReal), ((0 : ℝ) : EReal)⟩
      ⟨((0 : ℝ) : EReal), ((0 : ℝ) : EReal)⟩).isPadded := by
  have hwf : Interval.wfInput ⟨((0 : ℝ) : EReal), ((0 : ℝ) : EReal)⟩ :=
    ⟨le_refl _, EReal.coe_ne_top _, EReal.coe_ne_bot _⟩
  exact ⟨hwf, box_constructors_ordered_and_padded.2.1 _ _ _ hwf hwf hwf⟩

/-! ## Claim C7 -/

theorem Vec3.dot_neg_left (v w : Vec3) : Vec3.dot (-v) w = -Vec3.dot v w := by
  simp only [Vec3.dot, Vec3.neg_def]
  ring

theorem Vec3.length_squared_nonneg (v : Vec3) : 0 ≤ v.length_squared := by
  simp only [Vec3.length_squared]
  nlinarith [mul_self_nonneg v.x, mul_self_nonneg v.y, mul_self_nonneg v.z]

/-- Cauchy–Schwarz in components, by the Lagrange identity. -/
theorem Vec3.dot_sq_le (v w : Vec3) :
    Vec3.dot v w * Vec3.dot v w ≤ v.length_squared * w.length_squared := by
  simp only [Vec3.dot, Vec3.length_squared]
  nlinarith [sq_nonneg (v.x * w.y - v.y * w.x), sq_nonneg (v.x * w.z - v.z * w.x),
    sq_nonneg (v.y * w.z - v.z * w.y)]

theorem Vec3.unit_length_squared (d : Vec3) (hd : d.length_squared ≠ 0) :
    d.unit.length_squared = 1 := by
  have hpos : 0 < d.length_squared :=
    lt_of_le_of_ne d.length_squared_nonneg (Ne.symm hd)
  have hL : d.length * d.length = d.length_squared := by
    rw [Vec3.length]
    exact Real.mul_self_sqrt (le_of_lt hpos)
  have hLne : d.length ≠ 0 := by
    intro h0
    rw [h0, mul_zero] at hL
    exact hd hL.symm
  simp only [Vec3.unit, Vec3.length_squared, Vec3.div_def] at *
  field_simp
  linarith [hL]

theorem Vec3.dot_unit_left (d w : Vec3) :
    Vec3.dot d.unit w = Vec3.dot d w / d.length := by
  simp only [Vec3.unit, Vec3.dot, Vec3.div_def]
  ring

theorem real_literal_one : (1.0 : ℝ) = 1 := by norm_num

/-- `Vec3::refract` at ratio 1 on a unit incident vector against a unit,
opposing normal is the identity: zero deviation. -/
theorem refract_index_one (v n : Vec3) (hv : v.length_squared = 1)
    (hn : n.length_squared = 1) (hvn : Vec3.dot v n ≤ 0) :
    Vec3.refract v n 1.0 = v := by
  have habs : Vec3.dot v n * Vec3.dot v n ≤ 1 := by
    have := Vec3.dot_sq_le v n
    rw [hv, hn] at this
    linarith
  have hc0 : 0 ≤ Vec3.dot (-v) n := by rw [Vec3.dot_neg_left]; linarith
  have hcle : Vec3.dot (-v) n ≤ 1 := by
    rw [Vec3.dot_neg_left]
    nlinarith [habs]
  have hmin : min (Vec3.dot (-v) n) 1.0 = Vec3.dot (-v) n := by
    rw [real_literal_one]
    exact min_eq_left hcle
  rw [Vec3.refract, hmin]
  set c := Vec3.dot (-v) n with hc
  have hdot : Vec3.dot v n = -c := by rw [hc, Vec3.dot_neg_left]; ring
  have hperp : ((v + n * c) * (1.0 : ℝ)).length_squared = 1 - c ^ 2 := by
    have hexp : ((v + n * c) * (1.0 : ℝ)).length_squared =
        v.length_squared + 2 * c * Vec3.dot v n + c ^ 2 * n.length_squared := by
      simp only [Vec3.length_squared, Vec3.dot, Vec3.add_def, Vec3.smul_def]
      ring
    rw [hexp, hv, hn, hdot]
    ring
  rw [hperp]
  have habs2 : |1.0 - (1 - c ^ 2)| = c ^ 2 := by
    rw [show (1.0 : ℝ) - (1 - c ^ 2) = c ^ 2 by norm_num]
    exact abs_of_nonneg (sq_nonneg c)
  rw [habs2, Real.sqrt_sq hc0]
  ext <;> simp <;> ring

/-- The branch structure of `Dielectric::scatter` at refraction index `1.0`:
the ratio is `1` on both faces, so the result is the reflected ray when
total internal reflection or the Schlick draw fires, else the refracted
ray; the attenuation is always `(1,1,1)`. -/
theorem dielectricScatter_one_eq (ray : Ray) (hit : HitRecord) (u : ℝ) :
    dielectricScatter 1.0 u ray hit =
      if 1.0 * Real.sqrt (1.0 -
            min (Vec3.dot (-ray.direction) hit.normal) 1.0 *
              min (Vec3.dot (-ray.direction) hit.normal) 1.0) > 1.0 ∨
          dielectricReflectance
            (min (Vec3.dot (-ray.direction) hit.normal) 1.0) 1.0 > u then
        some (⟨hit.point, Vec3.reflect ray.direction.unit hit.normal⟩,
          vec3 1.0 1.0 1.0)
      else
        some (⟨hit.point, Vec3.refract ray.direction.unit hit.normal 1.0⟩,
          vec3 1.0 1.0 1.0) := by
  simp only [dielectricScatter]
  rw [show (if hit.front_face then 1.0 / 1.0 else (1.0 : ℝ)) = 1.0 by
    split <;> norm_num]

/-- Total internal reflection is impossible at ratio `1`. -/
theorem dielectric_one_no_tir (c : ℝ) :
    ¬(1.0 * Real.sqrt (1.0 - c * c) > 1.0) := by
  rw [real_literal_one, one_mul]
  push_neg
  calc Real.sqrt (1 - c * c) ≤ Real.sqrt 1 :=
        Real.sqrt_le_sqrt (by nlinarith [mul_self_nonneg c])
  _ = 1 := Real.sqrt_one

/-- Schlick's approximation at index ratio `1`: `r0 = 0`, so the
reflectance is `(1 − cos θ)^5`. -/
theorem dielectricReflectance_one (c : ℝ) :
    dielectricReflectance c 1.0 = (1 - c) ^ (5 : ℕ) := by
  rw [dielectricReflectance]
  norm_num

/-- Claim C7 counterexample: a dielectric with refraction index `1.0`, a unit
incident direction at `cos θ = 0.8`, and random draw `0.0001 < (1−0.8)^5 =
0.00032` — `scatter` takes the Schlick reflection branch, and the returned
direction is the mirror reflection `(0.6, 0, 0.8)`, not the incident
direction `(0.6, 0, −0.8)`. -/
theorem dielectric_unit_index_counterexample :
    ∃ res, dielectricScatter 1.0 0.0001
        ⟨vec3 0 0 5, vec3 0.6 0 (-0.8)⟩
        ⟨vec3 0 0 0, vec3 0 0 1, 1, true, 0, 0, Mat.dielectric 1.0,
          vec3 0 0 0⟩ = some res ∧
      res.1.direction ≠ (vec3 0.6 0 (-0.8)).unit ∧
      res.1.direction = vec3 0.6 0 0.8 := by
  have hunit : (vec3 0.6 0 (-0.8) : Vec3).unit = vec3 0.6 0 (-0.8) := by
    have hl : (vec3 0.6 0 (-0.8) : Vec3).length = 1 := by
      rw [Vec3.length, Vec3.length_squared]
      rw [show (vec3 0.6 0 (-0.8) : Vec3).x * (vec3 0.6 0 (-0.8) : Vec3).x +
          (vec3 0.6 0 (-0.8) : Vec3).y * (vec3 0.6 0 (-0.8) : Vec3).y +
          (vec3 0.6 0 (-0.8) : Vec3).z * (vec3 0.6 0 (-0.8) : Vec3).z =
          (1 : ℝ) by norm_num [vec3]]
      exact Real.sqrt_one
    rw [Vec3.unit, hl]
    ext <;> simp [vec3]
  have hmin : min (Vec3.dot (-(vec3 0.6 0 (-0.8) : Vec3)) (vec3 0 0 1)) 1.0 =
      (0.8 : ℝ) := by
    rw [show Vec3.dot (-(vec3 0.6 0 (-0.8) : Vec3)) (vec3 0 0 1) = (0.8 : ℝ) by
      norm_num [Vec3.dot, Vec3.neg_def, vec3]]
    norm_num
  have heq := dielectricScatter_one_eq
    ⟨vec3 0 0 5, vec3 0.6 0 (-0.8)⟩
    ⟨vec3 0 0 0, vec3 0 0 1, 1, true, 0, 0, Mat.dielectric 1.0, vec3 0 0 0⟩
    0.0001
  rw [if_pos] at heq
  · refine ⟨_, heq, ?_, ?_⟩
    · show Vec3.reflect (vec3 0.6 0 (-0.8) : Vec3).unit (vec3 0 0 1) ≠ _
      rw [hunit]
      intro h
      have hz := congrArg Vec3.z h
      simp only [Vec3.reflect, Vec3.dot, Vec3.sub_def, Vec3.smul_def, Vec3.mul_def,
        vec3] at hz
      norm_num at hz
    · show Vec3.reflect (vec3 0.6 0 (-0.8) : Vec3).unit (vec3 0 0 1) = _
      rw [hunit]
      ext <;> simp [Vec3.reflect, Vec3.dot, vec3] <;> norm_num
  · refine Or.inr ?_
    show dielectricReflectance _ 1.0 > _
    rw [hmin, dielectricReflectance_one]
    norm_num

/-- Claim C7 (amended): for a dielectric with refraction index `1.0`, on any
hit record with a unit normal opposing a nonzero incident direction (the hit
protocol invariant), `scatter` always returns a ray with attenuation
`(1,1,1)`; it refracts with zero deviation (direction = normalised incident
direction) exactly when the random draw is at least the Schlick term
`(1 − cos θ)^5`, and otherwise reflects.  The original claim fails because
the Schlick term is positive away from normal incidence, so small draws
produce reflections (see the counterexample). -/
theorem dielectric_unit_index_scatter (ray : Ray) (hit : HitRecord) (u : ℝ)
    (hd : ray.direction.length_squared ≠ 0)
    (hn : hit.normal.length_squared = 1)
    (hor : Vec3.dot ray.direction hit.normal ≤ 0) :
    ∃ res, dielectricScatter 1.0 u ray hit = some res ∧
      res.2 = vec3 1.0 1.0 1.0 ∧
      ((1 - min (Vec3.dot (-ray.direction) hit.normal) 1.0) ^ (5 : ℕ) ≤ u →
        res.1.direction = ray.direction.unit) ∧
      (u < (1 - min (Vec3.dot (-ray.direction) hit.normal) 1.0) ^ (5 : ℕ) →
        res.1.direction = Vec3.reflect ray.direction.unit hit.normal) := by
  have hsc := dielectricScatter_one_eq ray hit u
  set c := min (Vec3.dot (-ray.direction) hit.normal) 1.0 with hcdef
  rw [dielectricReflectance_one] at hsc
  by_cases hcase : (1 - c) ^ (5 : ℕ) > u
  · rw [if_pos (Or.inr hcase)] at hsc
    exact ⟨_, hsc, rfl, fun hle => absurd hcase (not_lt.2 hle), fun _ => rfl⟩
  · rw [if_neg ?hneg] at hsc
    case hneg =>
      intro hor'
      rcases hor' with h1 | h2
      · exact dielectric_one_no_tir c h1
      · exact hcase h2
    refine ⟨_, hsc, rfl, fun _ => ?_, fun hlt => absurd hlt hcase⟩
    apply refract_index_one
    · exact ray.direction.unit_length_squared hd
    · exact hn
    · rw [Vec3.dot_unit_left]
      apply div_nonpos_of_nonpos_of_nonneg hor
      rw [Vec3.length]
      exact Real.sqrt_nonneg _

/-- Claim C7 witness: the amended theorem at normal incidence (`cos θ = 1`,
Schlick term `0`) with draw `1/2`: the scatter refracts and the returned
direction is the normalised incident direction. -/
theorem dielectric_unit_index_scatter_witness :
    ∃ res, dielectricScatter 1.0 (1 / 2)
        ⟨vec3 0 0 3, vec3 0 0 (-2)⟩
        ⟨vec3 0 0 0, vec3 0 0 1, 1, true, 0, 0, Mat.dielectric 1.0,
          vec3 0 0 0⟩ = some res ∧
      res.1.direction = (vec3 0 0 (-2) : Vec3).unit := by
  obtain ⟨res, h1, _, h3, _⟩ := dielectric_unit_index_scatter
    ⟨vec3 0 0 3, vec3 0 0 (-2)⟩
    ⟨vec3 0 0 0, vec3 0 0 1, 1, true, 0, 0, Mat.dielectric 1.0, vec3 0 0 0⟩
    (1 / 2)
    (by simp only [Vec3.length_squared, vec3]; norm_num)
    (by simp only [Vec3.length_squared, vec3]; norm_num)
    (by simp only [Vec3.dot, vec3]; norm_num)
  refine ⟨res, h1, h3 ?_⟩
  rw [show min (Vec3.dot (-(vec3 0 0 (-2) : Vec3)) (vec3 0 0 1)) 1.0 =
      (1 : ℝ) by
    rw [show Vec3.dot (-(vec3 0 0 (-2) : Vec3)) (vec3 0 0 1) = (2 : ℝ) by
      norm_num [Vec3.dot, Vec3.neg_def, vec3]]
    norm_num]
  norm_num

/-! ## Claim C3 -/

/-- The squared distance from the ray point at parameter `t` to the sphere
center is the half-b quadratic evaluated at `t`. -/
theorem sphere_quadratic (center : Vec3) (ray : Ray) (t : ℝ) :
    (ray.at t - center).length_squared =
      sphereA ray * t ^ 2 - 2 * sphereH center ray * t +
        (sphereOc center ray).length_squared := by
  simp only [sphereA, sphereH, sphereOc, Ray.at, Vec3.dot, Vec3.length_squared,
    Vec3.add_def, Vec3.sub_def, Vec3.smul_def]
  ring

theorem quad_eval_at_root (a h c s : ℝ) (ha : a ≠ 0)
    (hs : s * s = h * h - a * c) :
    a * ((h - s) / a) ^ 2 - 2 * h * ((h - s) / a) + c = 0 ∧
    a * ((h + s) / a) ^ 2 - 2 * h * ((h + s) / a) + c = 0 := by
  constructor <;> (field_simp; linear_combination a ^ 2 * hs)

theorem quad_roots_only (a h c s t : ℝ) (ha : a ≠ 0)
    (hs : s * s = h * h - a * c) (ht : a * t ^ 2 - 2 * h * t + c = 0) :
    t = (h - s) / a ∨ t = (h + s) / a := by
  have hfac : a * (t - (h - s) / a) * (t - (h + s) / a) = 0 := by
    have hkey : a * (t - (h - s) / a) * (t - (h + s) / a) =
        a * t ^ 2 - 2 * h * t + c := by
      field_simp
      linear_combination -hs
    rw [hkey, ht]
  rcases mul_eq_zero.1 hfac with hl | hr
  · rcases mul_eq_zero.1 hl with h0 | h1
    · exact absurd h0 ha
    · exact Or.inl (by linarith [sub_eq_zero.1 h1])
  · exact Or.inr (by linarith [sub_eq_zero.1 hr])

/-- Claim C3 counterexample: for the sphere with center `(0,0,0)` and radius
`−1` (accepted by `Sphere::new`, see C9), the ray from `(−3,0,0)` with
direction `(1,0,0)` and query interval `(0, 10)` reports a hit at the point
`(−1,0,0)`, which is at distance `1` from the center — not within `1e-9` of
the (negative) radius `−1`. -/
theorem sphere_negative_radius_counterexample :
    ∃ rec, sphereHit (vec3 0 0 0) (-1) Mat.invisible
        ⟨vec3 (-3) 0 0, vec3 1 0 0⟩
        (Interval.new ((0 : ℝ) : EReal) ((10 : ℝ) : EReal)) = some rec ∧
      ¬(|(rec.point - vec3 0 0 0).length - (-1)| ≤ 1e-9) := by
  have hdisc : sphereDisc (vec3 0 0 0) (-1) ⟨vec3 (-3) 0 0, vec3 1 0 0⟩ =
      1 := by
    norm_num [sphereDisc, sphereH, sphereA, sphereCc, sphereOc, Vec3.dot,
      Vec3.length_squared, Vec3.sub_def, vec3]
  have hroot1 : sphereRoot1 (vec3 0 0 0) (-1) ⟨vec3 (-3) 0 0, vec3 1 0 0⟩ =
      2 := by
    rw [sphereRoot1, hdisc, Real.sqrt_one]
    norm_num [sphereH, sphereA, sphereOc, Vec3.dot, Vec3.length_squared,
      Vec3.sub_def, vec3]
  have hsurr : (Interval.new ((0 : ℝ) : EReal) ((10 : ℝ) : EReal)).surrounds
      (sphereRoot1 (vec3 0 0 0) (-1) ⟨vec3 (-3) 0 0, vec3 1 0 0⟩) := by
    rw [hroot1]
    exact ⟨EReal.coe_lt_coe_iff.2 (by norm_num),
      EReal.coe_lt_coe_iff.2 (by norm_num)⟩
  have heval : sphereHit (vec3 0 0 0) (-1) Mat.invisible
      ⟨vec3 (-3) 0 0, vec3 1 0 0⟩
      (Interval.new ((0 : ℝ) : EReal) ((10 : ℝ) : EReal)) =
      some (sphereRecord (vec3 0 0 0) (-1) Mat.invisible
        ⟨vec3 (-3) 0 0, vec3 1 0 0⟩
        (sphereRoot1 (vec3 0 0 0) (-1) ⟨vec3 (-3) 0 0, vec3 1 0 0⟩)) := by
    rw [sphereHit, if_neg (by rw [hdisc]; norm_num),
      if_neg (not_not_intro hsurr)]
  refine ⟨_, heval, ?_⟩
  have hpoint0 : (sphereRecord (vec3 0 0 0) (-1) Mat.invisible
      ⟨vec3 (-3) 0 0, vec3 1 0 0⟩
      (sphereRoot1 (vec3 0 0 0) (-1) ⟨vec3 (-3) 0 0, vec3 1 0 0⟩)).point =
      (⟨vec3 (-3) 0 0, vec3 1 0 0⟩ : Ray).at
        (sphereRoot1 (vec3 0 0 0) (-1) ⟨vec3 (-3) 0 0, vec3 1 0 0⟩) := rfl
  have hpoint : (sphereRecord (vec3 0 0 0) (-1) Mat.invisible
      ⟨vec3 (-3) 0 0, vec3 1 0 0⟩
      (sphereRoot1 (vec3 0 0 0) (-1) ⟨vec3 (-3) 0 0, vec3 1 0 0⟩)).point =
      vec3 (-1) 0 0 := by
    rw [hpoint0, hroot1]
    ext <;> simp [Ray.at, vec3] <;> norm_num
  rw [hpoint]
  have hlen : ((vec3 (-1) 0 0 : Vec3) - vec3 0 0 0).length = 1 := by
    rw [Vec3.length]
    rw [show ((vec3 (-1) 0 0 : Vec3) - vec3 0 0 0).length_squared = (1 : ℝ) by
      norm_num [Vec3.length_squared, Vec3.sub_def, vec3]]
    exact Real.sqrt_one
  rw [hlen]
  norm_num

/-- Claim C3 (amended): for every sphere and every ray with nonzero
direction, a reported hit parameter is a root of the quadratic
`|O + tD − C|² = r²`, lies strictly inside the query interval, and is the
smaller root `(h − √disc)/a` unless that root is not strictly inside, in
which case it is the larger root; the two candidate values are exactly the
roots of the quadratic; no hit is reported when the discriminant is negative
or neither root is strictly inside; and the reported hit point is at
distance `|radius|` (not the signed radius: see the counterexample) from the
center, within `1e-9`. -/
theorem sphere_hit_root_selection (center : Vec3) (radius : ℝ)
    (material : Mat) (ray : Ray) (I : Interval)
    (hd : ray.direction.length_squared ≠ 0) :
    (∀ rec, sphereHit center radius material ray I = some rec →
      (ray.at rec.t - center).length_squared = radius * radius ∧
      I.surrounds rec.t ∧
      (rec.t = sphereRoot1 center radius ray ∨
        (¬I.surrounds (sphereRoot1 center radius ray) ∧
          rec.t = sphereRoot2 center radius ray)) ∧
      sphereRoot1 center radius ray ≤ sphereRoot2 center radius ray ∧
      (∀ t : ℝ, (ray.at t - center).length_squared = radius * radius →
        t = sphereRoot1 center radius ray ∨
          t = sphereRoot2 center radius ray) ∧
      abs ((rec.point - center).length - |radius|) ≤ 1e-9) ∧
    (sphereDisc center radius ray < 0 →
      sphereHit center radius material ray I = none) ∧
    (¬I.surrounds (sphereRoot1 center radius ray) →
      ¬I.surrounds (sphereRoot2 center radius ray) →
      sphereHit center radius material ray I = none) := by
  have ha : sphereA ray ≠ 0 := hd
  have hapos : 0 < sphereA ray :=
    lt_of_le_of_ne ray.direction.length_squared_nonneg (Ne.symm hd)
  refine ⟨?_, ?_, ?_⟩
  · intro rec hrec
    rw [sphereHit] at hrec
    by_cases hdisc : sphereDisc center radius ray < 0.0
    · rw [if_pos hdisc] at hrec
      cases hrec
    · rw [if_neg hdisc] at hrec
      have hdisc0 : 0 ≤ sphereDisc center radius ray := by
        norm_num at hdisc
        exact hdisc
      have hs : Real.sqrt (sphereDisc center radius ray) *
          Real.sqrt (sphereDisc center radius ray) =
          sphereH center ray * sphereH center ray -
            sphereA ray * sphereCc center radius ray := by
        rw [Real.mul_self_sqrt hdisc0, sphereDisc]
      have hroots := quad_eval_at_root (sphereA ray) (sphereH center ray)
        (sphereCc center radius ray) (Real.sqrt (sphereDisc center radius ray))
        ha hs
      have hr12 : sphereRoot1 center radius ray ≤
          sphereRoot2 center radius ray := by
        rw [sphereRoot1, sphereRoot2, div_le_div_iff_of_pos_right hapos]
        linarith [Real.sqrt_nonneg (sphereDisc center radius ray)]
      have hisroot : ∀ root : ℝ,
          (root = sphereRoot1 center radius ray ∨
            root = sphereRoot2 center radius ray) →
          (ray.at root - center).length_squared = radius * radius := by
        intro root hr
        rw [sphere_quadratic]
        have hoclen : (sphereOc center ray).length_squared =
            sphereCc center radius ray + radius * radius := by
          rw [sphereCc]; ring
        rcases hr with hr | hr
        · rw [hr, sphereRoot1, hoclen]
          linarith [hroots.1]
        · rw [hr, sphereRoot2, hoclen]
          linarith [hroots.2]
      have hallroots : ∀ t : ℝ,
          (ray.at t - center).length_squared = radius * radius →
          t = sphereRoot1 center radius ray ∨
            t = sphereRoot2 center radius ray := by
        intro t ht
        rw [sphere_quadratic] at ht
        apply quad_roots_only _ _ _ _ _ ha hs
        rw [sphereCc]
        linarith [ht]
      have hdist : ∀ root : ℝ,
          (ray.at root - center).length_squared = radius * radius →
          abs ((ray.at root - center).length - |radius|) ≤ 1e-9 := by
        intro root hr
        rw [Vec3.length, hr, Real.sqrt_mul_self_eq_abs, sub_self, abs_zero]
        norm_num
      by_cases h1 : I.surrounds (sphereRoot1 center radius ray)
      · rw [if_neg (not_not_intro h1)] at hrec
        cases hrec
        have hroot : (sphereRecord center radius material ray
            (sphereRoot1 center radius ray)).t =
            sphereRoot1 center radius ray := rfl
        have hpt : (sphereRecord center radius material ray
            (sphereRoot1 center radius ray)).point =
            ray.at (sphereRoot1 center radius ray) := rfl
        have hq := hisroot _ (Or.inl rfl)
        exact ⟨by rw [hroot]; exact hq, by rw [hroot]; exact h1,
          Or.inl hroot, hr12, hallroots, by rw [hpt]; exact hdist _ hq⟩
      · rw [if_pos h1] at hrec
        by_cases h2 : I.surrounds (sphereRoot2 center radius ray)
        · rw [if_neg (not_not_intro h2)] at hrec
          cases hrec
          have hroot : (sphereRecord center radius material ray
              (sphereRoot2 center radius ray)).t =
              sphereRoot2 center radius ray := rfl
          have hpt : (sphereRecord center radius material ray
              (sphereRoot2 center radius ray)).point =
              ray.at (sphereRoot2 center radius ray) := rfl
          have hq := hisroot _ (Or.inr rfl)
          exact ⟨by rw [hroot]; exact hq, by rw [hroot]; exact h2,
            Or.inr ⟨h1, hroot⟩, hr12, hallroots, by rw [hpt]; exact hdist _ hq⟩
        · rw [if_pos h2] at hrec
          cases hrec
  · intro hdisc
    rw [sphereHit, if_pos (by norm_num; exact hdisc)]
  · intro h1 h2
    rw [sphereHit]
    by_cases hdisc : sphereDisc center radius ray < 0.0
    · rw [if_pos hdisc]
    · rw [if_neg hdisc, if_pos h1, if_pos h2]

/-- Claim C3 witness: the amended theorem applied to the unit sphere at the
origin and the ray from `(−3,0,0)` towards `+x` — the reported parameter is
strictly inside `(0,10)` and the hit point is at distance `|1|` of the
center within `1e-9`. -/
theorem sphere_hit_root_selection_witness :
    (vec3 1 0 0 : Vec3).length_squared ≠ 0 ∧
    ∃ rec, sphereHit (vec3 0 0 0) 1 Mat.invisible
        ⟨vec3 (-3) 0 0, vec3 1 0 0⟩
        (Interval.new ((0 : ℝ) : EReal) ((10 : ℝ) : EReal)) = some rec ∧
      (Interval.new ((0 : ℝ) : EReal) ((10 : ℝ) : EReal)).surrounds rec.t ∧
      abs ((rec.point - vec3 0 0 0).length - |(1 : ℝ)|) ≤ 1e-9 := by
  have hdne : (vec3 1 0 0 : Vec3).length_squared ≠ 0 := by
    norm_num [Vec3.length_squared, vec3]
  have hdisc : sphereDisc (vec3 0 0 0) 1 ⟨vec3 (-3) 0 0, vec3 1 0 0⟩ = 1 := by
    norm_num [sphereDisc, sphereH, sphereA, sphereCc, sphereOc, Vec3.dot,
      Vec3.length_squared, Vec3.sub_def, vec3]
  have hroot1 : sphereRoot1 (vec3 0 0 0) 1 ⟨vec3 (-3) 0 0, vec3 1 0 0⟩ =
      2 := by
    rw [sphereRoot1, hdisc, Real.sqrt_one]
    norm_num [sphereH, sphereA, sphereOc, Vec3.dot, Vec3.length_squared,
      Vec3.sub_def, vec3]
  have hsurr : (Interval.new ((0 : ℝ) : EReal) ((10 : ℝ) : EReal)).surrounds
      (sphereRoot1 (vec3 0 0 0) 1 ⟨vec3 (-3) 0 0, vec3 1 0 0⟩) := by
    rw [hroot1]
    exact ⟨EReal.coe_lt_coe_iff.2 (by norm_num),
      EReal.coe_lt_coe_iff.2 (by norm_num)⟩
  have heval : sphereHit (vec3 0 0 0) 1 Mat.invisible
      ⟨vec3 (-3) 0 0, vec3 1 0 0⟩
      (Interval.new ((0 : ℝ) : EReal) ((10 : ℝ) : EReal)) =
      some (sphereRecord (vec3 0 0 0) 1 Mat.invisible
        ⟨vec3 (-3) 0 0, vec3 1 0 0⟩
        (sphereRoot1 (vec3 0 0 0) 1 ⟨vec3 (-3) 0 0, vec3 1 0 0⟩)) := by
    rw [sphereHit, if_neg (by rw [hdisc]; norm_num),
      if_neg (not_not_intro hsurr)]
  obtain ⟨hmain, -, -⟩ := sphere_hit_root_selection (vec3 0 0 0) 1
    Mat.invisible ⟨vec3 (-3) 0 0, vec3 1 0 0⟩
    (Interval.new ((0 : ℝ) : EReal) ((10 : ℝ) : EReal)) hdne
  obtain ⟨-, hsur, -, -, -, hdist⟩ := hmain _ heval
  exact ⟨hdne, _, heval, hsur, hdist⟩

/-! ## Claim C2 -/

theorem Vec3.dot_neg_right (v w : Vec3) : Vec3.dot v (-w) = -Vec3.dot v w := by
  simp only [Vec3.dot, Vec3.neg_def]
  ring

/-- `HitRecord::new` orients the stored normal against the incoming ray. -/
theorem hitRecord_new_normal_le (ray : Ray) (t : ℝ) (p n : Vec3) (m : Mat) :
    Vec3.dot ray.direction (HitRecord.new ray t p n m).normal ≤ 0 := by
  simp only [HitRecord.new]
  by_cases h : Vec3.dot ray.direction n < 0.0
  · rw [if_pos h]
    norm_num at h
    linarith
  · rw [if_neg h, Vec3.dot_neg_right]
    norm_num at h
    linarith

theorem setUv_normal (rec : HitRecord) (u v : ℝ) :
    (rec.setUv u v).normal = rec.normal := rfl

theorem sphereHit_normal_le (center : Vec3) (radius : ℝ) (material : Mat)
    (ray : Ray) (I : Interval) (rec : HitRecord)
    (h : sphereHit center radius material ray I = some rec) :
    Vec3.dot ray.direction rec.normal ≤ 0 := by
  have hrec : ∀ root : ℝ, Vec3.dot ray.direction
      (sphereRecord center radius material ray root).normal ≤ 0 := by
    intro root
    exact hitRecord_new_normal_le ray root (ray.at root)
      ((ray.at root - center) / radius) material
  rw [sphereHit] at h
  by_cases hd : sphereDisc center radius ray < 0.0
  · rw [if_pos hd] at h
    cases h
  · rw [if_neg hd] at h
    by_cases h1 : I.surrounds (sphereRoot1 center radius ray)
    · rw [if_neg (not_not_intro h1)] at h
      cases h
      exact hrec _
    · rw [if_pos h1] at h
      by_cases h2 : I.surrounds (sphereRoot2 center radius ray)
      · rw [if_neg (not_not_intro h2)] at h
        cases h
        exact hrec _
      · rw [if_pos h2] at h
        cases h

theorem triangleHit_normal_le (vertex : Vec3 × Vec3 × Vec3) (material : Mat)
    (ray : Ray) (I : Interval) (rec : HitRecord)
    (h : triangleHit vertex material ray I = some rec) :
    Vec3.dot ray.direction rec.normal ≤ 0 := by
  simp only [triangleHit] at h
  split at h
  · cases h
    exact hitRecord_new_normal_le _ _ _ _ _
  · cases h

theorem planeHit_normal_le (point normal : Vec3) (ray : Ray) (I : Interval)
    (rec : HitRecord) (h : planeHit point normal ray I = some rec) :
    Vec3.dot ray.direction rec.normal ≤ 0 := by
  simp only [planeHit] at h
  split at h
  · cases h
  · split at h
    · cases h
    · cases h
      exact hitRecord_new_normal_le _ _ _ _ _

theorem parallelogramHit_normal_le (corner : Vec3) (sides : Vec3 × Vec3)
    (normal w : Vec3) (material : Mat) (ray : Ray) (I : Interval)
    (rec : HitRecord)
    (h : parallelogramHit corner sides normal w material ray I = some rec) :
    Vec3.dot ray.direction rec.normal ≤ 0 := by
  simp only [parallelogramHit] at h
  cases heq : planeHit corner normal ray I with
  | none => rw [heq] at h; cases h
  | some record =>
    rw [heq] at h
    cases heq2 : parallelogramIsInterior
        (Vec3.dot w (Vec3.cross (record.point - corner) sides.2))
        (Vec3.dot w (Vec3.cross sides.1 (record.point - corner))) with
    | none => simp only [heq2] at h; cases h
    | some uv =>
      simp only [heq2] at h
      cases h
      exact hitRecord_new_normal_le ray record.t record.point normal material

theorem planarTriangleHit_normal_le (vertex : Vec3 × Vec3 × Vec3)
    (normal : Vec3) (material : Mat) (ray : Ray) (I : Interval)
    (rec : HitRecord)
    (h : planarTriangleHit vertex normal material ray I = some rec) :
    Vec3.dot ray.direction rec.normal ≤ 0 := by
  simp only [planarTriangleHit] at h
  cases heq : planeHit vertex.1 normal ray I with
  | none => rw [heq] at h; cases h
  | some record =>
    rw [heq] at h
    cases heq2 : triangleIsInterior
        (Vec3.dot (normal / Vec3.dot normal normal)
          (Vec3.cross (record.point - vertex.1) (vertex.2.2 - vertex.1)))
        (Vec3.dot (normal / Vec3.dot normal normal)
          (Vec3.cross (vertex.2.1 - vertex.1) (record.point - vertex.1))) with
    | none => simp only [heq2] at h; cases h
    | some uv =>
      simp only [heq2] at h
      cases h
      exact hitRecord_new_normal_le ray record.t record.point normal material

theorem planarParallelogramHit_normal_le (corner : Vec3)
    (sides : Vec3 × Vec3) (normal w : Vec3) (material : Mat) (ray : Ray)
    (I : Interval) (rec : HitRecord)
    (h : planarParallelogramHit corner sides normal w material ray I =
      some rec) :
    Vec3.dot ray.direction rec.normal ≤ 0 := by
  simp only [planarParallelogramHit] at h
  cases heq : planeHit corner normal ray I with
  | none => rw [heq] at h; cases h
  | some record =>
    rw [heq] at h
    cases heq2 : parallelogramIsInterior
        (Vec3.dot w (Vec3.cross (record.point - corner) sides.2))
        (Vec3.dot w (Vec3.cross sides.1 (record.point - corner))) with
    | none => simp only [heq2] at h; cases h
    | some uv =>
      simp only [heq2] at h
      cases h
      exact hitRecord_new_normal_le ray record.t record.point normal material

/-- A `some` result of the `BoundNode::hit` child combination comes from one
of the two children. -/
theorem combineHits_eq_some (a b : Option HitRecord) (rec : HitRecord)
    (h : combineHits a b = some rec) : a = some rec ∨ b = some rec := by
  cases a with
  | none =>
    cases b with
    | none => rw [combineHits] at h; cases h
    | some rb => rw [combineHits] at h; exact Or.inr h
  | some ra =>
    cases b with
    | none => rw [combineHits] at h; exact Or.inl h
    | some rb =>
      rw [combineHits] at h
      split at h
      · exact Or.inl h
      · exact Or.inr h

/-- A `some` result of the `HittableList::hit` scan loop is either the
accumulator or a hit of one of the scanned objects (on some interval). -/
theorem listScanHit_origin : ∀ (objs : List Node) (ray : Ray)
    (s closest : EReal) (acc : Option HitRecord) (rec : HitRecord),
    listScanHit objs ray s closest acc = some rec →
    acc = some rec ∨ ∃ o ∈ objs, ∃ I2, nodeHit o ray I2 = some rec := by
  intro objs
  induction objs with
  | nil =>
    intro ray s closest acc rec h
    rw [listScanHit] at h
    exact Or.inl h
  | cons o rest ih =>
    intro ray s closest acc rec h
    rw [listScanHit] at h
    cases heq : nodeHit o ray (Interval.fromRange s closest) with
    | some rec2 =>
      rw [heq] at h
      rcases ih _ _ _ _ _ h with hacc | ⟨o2, ho2, I2, h2⟩
      · refine Or.inr ⟨o, List.mem_cons_self o rest,
          Interval.fromRange s closest, ?_⟩
        rw [heq, hacc]
      · exact Or.inr ⟨o2, List.mem_cons_of_mem _ ho2, I2, h2⟩
    | none =>
      rw [heq] at h
      rcases ih _ _ _ _ _ h with hacc | ⟨o2, ho2, I2, h2⟩
      · exact Or.inl hacc
      · exact Or.inr ⟨o2, List.mem_cons_of_mem _ ho2, I2, h2⟩

/-- The rotation algebra of `RotateY::hit`: dotting the world-space ray
direction against the rotated-back normal equals dotting the object-space
direction against the object-space normal. -/
theorem rotateY_dot (s c : ℝ) (d n : Vec3) :
    Vec3.dot d ⟨c * n.x + s * n.z, n.y, -s * n.x + c * n.z⟩ =
      Vec3.dot ⟨c * d.x - s * d.z, d.y, s * d.x + c * d.z⟩ n := by
  simp only [Vec3.dot]
  ring

theorem nodeHit_normal_le_aux : ∀ (k : ℕ) (n : Node), sizeOf n ≤ k →
    ∀ (ray : Ray) (I : Interval) (rec : HitRecord),
    nodeHit n ray I = some rec → Vec3.dot ray.direction rec.normal ≤ 0 := by
  intro k
  induction k with
  | zero =>
    intro n hn
    exfalso
    cases n <;> simp at hn
  | succ k ih =>
    intro n hn ray I rec h
    cases n with
    | sphere center radius material bounds =>
      rw [nodeHit] at h
      exact sphereHit_normal_le _ _ _ _ _ _ h
    | triangle vertex normal material bounds =>
      rw [nodeHit] at h
      exact triangleHit_normal_le _ _ _ _ _ h
    | parallelogram corner sides normal w material bounds =>
      rw [nodeHit] at h
      exact parallelogramHit_normal_le _ _ _ _ _ _ _ _ h
    | plane point normal =>
      rw [nodeHit] at h
      exact planeHit_normal_le _ _ _ _ _ h
    | planarTriangle vertex normal material bounds =>
      rw [nodeHit] at h
      exact planarTriangleHit_normal_le _ _ _ _ _ _ h
    | planarParallelogram corner sides normal w material bounds =>
      rw [nodeHit] at h
      exact planarParallelogramHit_normal_le _ _ _ _ _ _ _ _ h
    | list objs bounds =>
      rw [nodeHit] at h
      rcases listScanHit_origin objs ray I.start I.end_ none rec h with
        hacc | ⟨o, ho, I2, h2⟩
      · cases hacc
      · have hs : sizeOf o ≤ k := by
          have h1 := List.sizeOf_lt_of_mem ho
          simp at hn
          omega
        exact ih o hs ray I2 rec h2
    | bnode bounds left right =>
      rw [nodeHit] at h
      split at h
      · rcases combineHits_eq_some _ _ _ h with hc | hc
        · have hs : sizeOf left ≤ k := by simp at hn; omega
          exact ih left hs ray I rec hc
        · have hs : sizeOf right ≤ k := by simp at hn; omega
          exact ih right hs ray I rec hc
      · cases h
    | translation obj offset bounds =>
      rw [nodeHit] at h
      cases heq : nodeHit obj ⟨ray.origin - offset, ray.direction⟩ I with
      | none => rw [heq] at h; cases h
      | some rec2 =>
        rw [heq] at h
        cases h
        have hs : sizeOf obj ≤ k := by simp at hn; omega
        exact ih obj hs ⟨ray.origin - offset, ray.direction⟩ I rec2 heq
    | rotateY obj sin_theta cos_theta bounds =>
      simp only [nodeHit] at h
      cases heq : nodeHit obj
          ⟨⟨cos_theta * ray.origin.x - sin_theta * ray.origin.z, ray.origin.y,
            sin_theta * ray.origin.x + cos_theta * ray.origin.z⟩,
           ⟨cos_theta * ray.direction.x - sin_theta * ray.direction.z,
            ray.direction.y,
            sin_theta * ray.direction.x + cos_theta * ray.direction.z⟩⟩ I with
      | none => rw [heq] at h; cases h
      | some rec2 =>
        rw [heq] at h
        cases h
        have hs : sizeOf obj ≤ k := by simp at hn; omega
        have hih := ih obj hs _ I rec2 heq
        show Vec3.dot ray.direction
          ⟨cos_theta * rec2.normal.x + sin_theta * rec2.normal.z,
           rec2.normal.y,
           -sin_theta * rec2.normal.x + cos_theta * rec2.normal.z⟩ ≤ 0
        rw [show (⟨cos_theta * rec2.normal.x + sin_theta * rec2.normal.z,
            rec2.normal.y,
            -sin_theta * rec2.normal.x + cos_theta * rec2.normal.z⟩ : Vec3) =
            ⟨cos_theta * rec2.normal.x + sin_theta * rec2.normal.z,
             rec2.normal.y,
             -sin_theta * rec2.normal.x + cos_theta * rec2.normal.z⟩ from rfl,
          rotateY_dot]
        exact hih
    | medium boundary neg_inv_density phase_function urand =>
      simp only [nodeHit] at h
      cases heq1 : nodeHit boundary ray Interval.universe with
      | none => rw [heq1] at h; cases h
      | some rec1 =>
        simp only [heq1] at h
        cases heq2 : nodeHit boundary ray
            (Interval.fromRange ((rec1.t + 0.0001 : ℝ) : EReal) ⊤) with
        | none => rw [heq2] at h; cases h
        | some rec2 =>
          simp only [heq2] at h
          split at h
          · cases h
          · split at h
            · cases h
            · cases h
              exact hitRecord_new_normal_le _ _ _ _ _

/-- Claim C2: for every scene node (sphere, planar primitives, plane helper,
list, BVH node, translation, Y-rotation, constant medium), every ray and
every query interval, a returned hit record has its normal oriented against
the incoming ray: `dot(ray.direction, record.normal) ≤ 0`. -/
theorem hit_normal_opposes_ray (n : Node) (ray : Ray) (I : Interval)
    (rec : HitRecord) (h : nodeHit n ray I = some rec) :
    Vec3.dot ray.direction rec.normal ≤ 0 :=
  nodeHit_normal_le_aux (sizeOf n) n (le_refl _) ray I rec h

/-- Claim C2 witness: a plane hit whose geometric normal points along the
ray; the record's normal is flipped and the dot product is `−1 ≤ 0`. -/
theorem hit_normal_opposes_ray_witness :
    ∃ rec, nodeHit (Node.plane (vec3 0 0 0) (vec3 0 0 1))
        ⟨vec3 0 0 (-5), vec3 0 0 1⟩ Interval.universe = some rec ∧
      Vec3.dot (vec3 0 0 1) rec.normal ≤ 0 := by
  have heval : nodeHit (Node.plane (vec3 0 0 0) (vec3 0 0 1))
      ⟨vec3 0 0 (-5), vec3 0 0 1⟩ Interval.universe =
      some (HitRecord.new ⟨vec3 0 0 (-5), vec3 0 0 1⟩
        ((Vec3.dot (vec3 0 0 0) (vec3 0 0 1) -
          Vec3.dot (vec3 0 0 (-5)) (vec3 0 0 1)) /
            Vec3.dot (vec3 0 0 1) (vec3 0 0 1))
        ((⟨vec3 0 0 (-5), vec3 0 0 1⟩ : Ray).at
          ((Vec3.dot (vec3 0 0 0) (vec3 0 0 1) -
            Vec3.dot (vec3 0 0 (-5)) (vec3 0 0 1)) /
              Vec3.dot (vec3 0 0 1) (vec3 0 0 1)))
        (vec3 0 0 1) Mat.invisible) := by
    simp only [nodeHit, planeHit]
    rw [if_neg (by norm_num [Vec3.dot, vec3]),
      if_neg (not_not_intro ⟨bot_le, le_top⟩)]
  refine ⟨_, heval, ?_⟩
  exact hit_normal_opposes_ray _ _ _ _ heval

/-! ## Claim C6 -/

/-- Following the spec's words for claim C6: the axis-aligned union of the 8
corners of the wrapped box `b`, each rotated about the Y axis — all corners
read from the original box `b`, the union starting from the empty box.  This
is the comparison target the claim asserts; `rotateYBounds` is what the code
computes. -/
def specRotateYCornerUnion (b : BoundingBox) (sin_theta cos_theta : ℝ) :
    BoundingBox :=
  rotateYCorners.foldl (fun acc ijk =>
    let x : EReal := ((ijk.1 : ℝ) : EReal) * (b.intervals 0).end_ +
      (((1 - ijk.1 : ℝ)) : EReal) * (b.intervals 0).start
    let y : EReal := ((ijk.2.1 : ℝ) : EReal) * (b.intervals 1).end_ +
      (((1 - ijk.2.1 : ℝ)) : EReal) * (b.intervals 1).start
    let z : EReal := ((ijk.2.2 : ℝ) : EReal) * (b.intervals 2).end_ +
      (((1 - ijk.2.2 : ℝ)) : EReal) * (b.intervals 2).start
    let new_x : EReal := (cos_theta : EReal) * x + (sin_theta : EReal) * z
    let new_z : EReal :=
      ((-sin_theta : ℝ) : EReal) * x + (cos_theta : EReal) * z
    let tester : Fin 3 → EReal := ![new_x, y, new_z]
    ⟨fun c => Interval.fromPair (acc.intervals c)
      (Interval.new (tester c) (tester c))⟩)
    BoundingBox.empty

theorem sin_90_deg : Real.sin (90 * (Real.pi / 180)) = 1 := by
  rw [show (90 : ℝ) * (Real.pi / 180) = Real.pi / 2 by ring]
  exact Real.sin_pi_div_two

theorem cos_90_deg : Real.cos (90 * (Real.pi / 180)) = 0 := by
  rw [show (90 : ℝ) * (Real.pi / 180) = Real.pi / 2 by ring]
  exact Real.cos_pi_div_two

/-- Claim C6 counterexample: wrap an object whose box is
`[0,1]×[0,1]×[2,3]` and rotate by 90°.  The spec's union of the 8 rotated
corners has x-axis `[2,3]`, but `RotateY::new` reads each corner from the
box as already enlarged by earlier corners, so its stored box has x-axis
start `−3` — the two boxes differ. -/
theorem rotateY_bounds_counterexample :
    nodeBound (rotateYNew (Node.list []
        ⟨![⟨((0 : ℝ) : EReal), ((1 : ℝ) : EReal)⟩,
           ⟨((0 : ℝ) : EReal), ((1 : ℝ) : EReal)⟩,
           ⟨((2 : ℝ) : EReal), ((3 : ℝ) : EReal)⟩]⟩) 90) ≠
      specRotateYCornerUnion (nodeBound (Node.list []
        ⟨![⟨((0 : ℝ) : EReal), ((1 : ℝ) : EReal)⟩,
           ⟨((0 : ℝ) : EReal), ((1 : ℝ) : EReal)⟩,
           ⟨((2 : ℝ) : EReal), ((3 : ℝ) : EReal)⟩]⟩))
        (Real.sin (90 * (Real.pi / 180))) (Real.cos (90 * (Real.pi / 180))) := by
  intro hEq
  have hcode : ((nodeBound (rotateYNew (Node.list []
      ⟨![⟨((0 : ℝ) : EReal), ((1 : ℝ) : EReal)⟩,
         ⟨((0 : ℝ) : EReal), ((1 : ℝ) : EReal)⟩,
         ⟨((2 : ℝ) : EReal), ((3 : ℝ) : EReal)⟩]⟩) 90)).intervals 0).start =
      ((-3 : ℝ) : EReal) := by
    simp only [rotateYNew, nodeBound, sin_90_deg, cos_90_deg, rotateYBounds,
      rotateYCorners, List.foldl_cons, List.foldl_nil, rotateYCornerStep,
      Interval.fromPair, Interval.new, Matrix.cons_val_zero, Matrix.cons_val_one,
      Matrix.head_cons, Matrix.cons_val_two, Matrix.tail_cons,
      ← EReal.coe_mul, ← EReal.coe_add, ← EReal.coe_neg,
      ← ereal_coe_min, ← ereal_coe_max]
    norm_num
  have hspec : ((specRotateYCornerUnion (nodeBound (Node.list []
      ⟨![⟨((0 : ℝ) : EReal), ((1 : ℝ) : EReal)⟩,
         ⟨((0 : ℝ) : EReal), ((1 : ℝ) : EReal)⟩,
         ⟨((2 : ℝ) : EReal), ((3 : ℝ) : EReal)⟩]⟩))
      (Real.sin (90 * (Real.pi / 180)))
      (Real.cos (90 * (Real.pi / 180)))).intervals 0).start =
      ((2 : ℝ) : EReal) := by
    simp only [nodeBound, sin_90_deg, cos_90_deg, specRotateYCornerUnion,
      rotateYCorners, List.foldl_cons, List.foldl_nil, BoundingBox.empty,
      Interval.empty, Interval.fromPair, Interval.new, Matrix.cons_val_zero,
      Matrix.cons_val_one, Matrix.head_cons, Matrix.cons_val_two,
      Matrix.tail_cons,
      ← EReal.coe_mul, ← EReal.coe_add, ← EReal.coe_neg,
      ← ereal_coe_min, ← ereal_coe_max, min_top_left, max_bot_left]
    norm_num
  rw [hEq, hspec] at hcode
  rw [EReal.coe_eq_coe_iff] at hcode
  norm_num at hcode

/-- An interval is contained in another. -/
def Interval.subI (a b : Interval) : Prop :=
  b.start ≤ a.start ∧ a.end_ ≤ b.end_

/-- A box is contained in another, axiswise. -/
def BoundingBox.subBox (a b : BoundingBox) : Prop :=
  ∀ i : Fin 3, (a.intervals i).subI (b.intervals i)

theorem subBox_refl (a : BoundingBox) : a.subBox a :=
  fun _ => ⟨le_refl _, le_refl _⟩

theorem subBox_trans {a b c : BoundingBox} (h1 : a.subBox b)
    (h2 : b.subBox c) : a.subBox c :=
  fun i => ⟨le_trans (h2 i).1 (h1 i).1, le_trans (h1 i).2 (h2 i).2⟩

theorem rotateYCornerStep_grows (s c : ℝ) (b : BoundingBox)
    (ijk : ℝ × ℝ × ℝ) : b.subBox (rotateYCornerStep s c b ijk) := by
  intro i
  exact ⟨min_le_left _ _, le_max_left _ _⟩

theorem rotateY_foldl_grows : ∀ (l : List (ℝ × ℝ × ℝ)) (s c : ℝ)
    (b : BoundingBox), b.subBox (l.foldl (rotateYCornerStep s c) b) := by
  intro l
  induction l with
  | nil => intro s c b; exact subBox_refl b
  | cons ijk rest ih =>
    intro s c b
    rw [List.foldl_cons]
    exact subBox_trans (rotateYCornerStep_grows s c b ijk) (ih s c _)

/-- Claim C6 (amended): the bounding box stored by `RotateY::new` contains
the wrapped object's bounding box (each corner fold only enlarges the box);
it is not in general equal to the axis-aligned union of the 8 rotated
corners of the wrapped box, because each corner is read from the box as
already enlarged by the previous corners (see the counterexample). -/
theorem rotateY_bounds_contain_wrapped (object : Node) (angle : ℝ) :
    (nodeBound object).subBox (nodeBound (rotateYNew object angle)) := by
  simp only [rotateYNew, nodeBound, rotateYBounds]
  exact rotateY_foldl_grows rotateYCorners _ _ (nodeBound object)

/-! ## Claim C1

The BVH traversal and the linear scan are compared through the minimum hit
parameter over a set of objects.  `Faithful` captures the contract the
comparison needs from each trait object: hits stay inside the query
interval, shrinking only the interval end cannot create new or smaller
hits, every reported hit passes the object's own slab test, and the
object's box is ordered.  The standalone `Triangle::hit` violates the
contract (it ignores the interval entirely), and the counterexample below
exploits exactly that. -/

/-- The hit parameter of an object on a ray over an interval, if any. -/
def candT (ray : Ray) (I : Interval) (o : HObj) : Option ℝ :=
  Option.map HitRecord.t (o.hit ray I)

/-- Minimum of two optional reals (`none` = no candidate). -/
def optMin : Option ℝ → Option ℝ → Option ℝ
  | some a, some b => some (min a b)
  | some a, none => some a
  | none, some b => some b
  | none, none => none

/-- The least hit parameter over a list of objects (the semantic yardstick
both traversals are measured against). -/
def bestT (objs : List HObj) (ray : Ray) (I : Interval) : Option ℝ :=
  objs.foldr (fun o acc => optMin (candT ray I o) acc) none

/-- Some object of the list hits at parameter `t`. -/
def HitOf (objs : List HObj) (ray : Ray) (I : Interval) (t : ℝ) : Prop :=
  ∃ o ∈ objs, ∃ rec, o.hit ray I = some rec ∧ rec.t = t

/-- The interval contract of a well-behaved `dyn Hittable`.  The query
intervals of both traversals share their start, so only end-narrowing needs
to be constrained. -/
structure Faithful (o : HObj) : Prop where
  mem : ∀ (ray : Ray) (I : Interval) (rec : HitRecord),
    o.hit ray I = some rec →
    I.start ≤ ((rec.t : ℝ) : EReal) ∧ ((rec.t : ℝ) : EReal) ≤ I.end_
  mono : ∀ (ray : Ray) (s e e2 : EReal), e2 ≤ e →
    o.hit ray ⟨s, e⟩ = none → o.hit ray ⟨s, e2⟩ = none
  stable : ∀ (ray : Ray) (s e e2 : EReal) (rec : HitRecord),
    o.hit ray ⟨s, e⟩ = some rec → ((rec.t : ℝ) : EReal) < e2 → e2 ≤ e →
    o.hit ray ⟨s, e2⟩ = some rec
  narrow : ∀ (ray : Ray) (s e e2 : EReal) (rec2 : HitRecord), e2 ≤ e →
    o.hit ray ⟨s, e2⟩ = some rec2 →
    ∃ rec, o.hit ray ⟨s, e⟩ = some rec ∧ rec.t ≤ rec2.t
  box : ∀ (ray : Ray) (I : Interval) (rec : HitRecord),
    o.hit ray I = some rec → o.bound.slabHit ray I = true
  ordered : ∀ i : Fin 3,
    (o.bound.intervals i).start ≤ (o.bound.intervals i).end_

theorem optMin_none_right : ∀ x : Option ℝ, optMin x none = x
  | some _ => rfl
  | none => rfl

theorem optMin_none_left : ∀ x : Option ℝ, optMin none x = x
  | some _ => rfl
  | none => rfl

theorem optMin_assoc (a b c : Option ℝ) :
    optMin (optMin a b) c = optMin a (optMin b c) := by
  cases a <;> cases b <;> cases c <;> simp [optMin, min_assoc]

theorem optMin_absorb (a b : ℝ) (x : Option ℝ) (h : a ≤ b) :
    optMin (some a) (optMin (some b) x) = optMin (some a) x := by
  cases x with
  | none => simp [optMin, min_eq_left h]
  | some c =>
    simp only [optMin, Option.some.injEq]
    rw [← min_assoc, min_eq_left h]

theorem bestT_cons (o : HObj) (rest : List HObj) (ray : Ray) (I : Interval) :
    bestT (o :: rest) ray I = optMin (candT ray I o) (bestT rest ray I) := rfl

/-- The scan loop of `HittableList::hit` computes the minimum hit parameter
over the objects at the original interval, combined with the accumulator. -/
theorem hlistScan_bestT :
    ∀ (objs : List HObj) (ray : Ray) (s e : EReal),
    (∀ o ∈ objs, Faithful o) →
    ∀ (acc : Option HitRecord) (closest : EReal),
    ((acc = none ∧ closest = e) ∨
      (∃ r, acc = some r ∧ closest = ((r.t : ℝ) : EReal) ∧ closest ≤ e)) →
    Option.map HitRecord.t (hlistScan objs ray s closest acc) =
      optMin (Option.map HitRecord.t acc) (bestT objs ray ⟨s, e⟩) := by
  intro objs
  induction objs with
  | nil =>
    intro ray s e hf acc closest hinv
    rw [hlistScan]
    exact (optMin_none_right _).symm
  | cons o rest ih =>
    intro ray s e hf acc closest hinv
    have hfo : Faithful o := hf o (List.mem_cons_self o rest)
    have hfr : ∀ o2 ∈ rest, Faithful o2 :=
      fun o2 h2 => hf o2 (List.mem_cons_of_mem _ h2)
    have hce : closest ≤ e := by
      rcases hinv with ⟨-, h⟩ | ⟨r, -, -, h⟩
      · exact le_of_eq h
      · exact h
    rw [hlistScan]
    cases heq : o.hit ray (Interval.fromRange s closest) with
    | some rec2 =>
      have heq2 : o.hit ray ⟨s, closest⟩ = some rec2 := heq
      have hup : ((rec2.t : ℝ) : EReal) ≤ closest :=
        (hfo.mem ray ⟨s, closest⟩ rec2 heq2).2
      have ht2e : ((rec2.t : ℝ) : EReal) ≤ e := le_trans hup hce
      have hkey : optMin (Option.map HitRecord.t acc) (candT ray ⟨s, e⟩ o) =
          some rec2.t := by
        rcases hinv with ⟨hacc, hclo⟩ | ⟨r, hacc, hclo, -⟩
        · subst hacc
          have hfull : o.hit ray ⟨s, e⟩ = some rec2 := by
            rw [← hclo]
            exact heq2
          have hc : candT ray ⟨s, e⟩ o = some rec2.t := by
            rw [candT, hfull]
            rfl
          rw [hc]
          rfl
        · subst hacc
          subst hclo
          obtain ⟨rec3, hrec3, hle3⟩ :=
            hfo.narrow ray s e ((r.t : ℝ) : EReal) rec2 hce heq2
          have ht2r : rec2.t ≤ r.t := EReal.coe_le_coe_iff.1 hup
          have heq3 : rec3.t = rec2.t := by
            by_contra hne
            have hlt : rec3.t < rec2.t := lt_of_le_of_ne hle3 hne
            have hltE : ((rec3.t : ℝ) : EReal) < ((r.t : ℝ) : EReal) :=
              EReal.coe_lt_coe_iff.2 (lt_of_lt_of_le hlt ht2r)
            have hstab := hfo.stable ray s e ((r.t : ℝ) : EReal) rec3 hrec3
              hltE hce
            rw [heq2] at hstab
            have h32 : rec2 = rec3 := by injection hstab
            exact hne (by rw [h32.symm])
          have hc : candT ray ⟨s, e⟩ o = some rec3.t := by
            rw [candT, hrec3]
            rfl
          rw [hc, heq3]
          show optMin (some r.t) (some rec2.t) = some rec2.t
          simp only [optMin, Option.some.injEq]
          exact min_eq_right ht2r
      rw [ih ray s e hfr (some rec2) ((rec2.t : ℝ) : EReal)
        (Or.inr ⟨rec2, rfl, rfl, ht2e⟩)]
      rw [bestT_cons, ← optMin_assoc, hkey]
      rfl
    | none =>
      have heqn : o.hit ray ⟨s, closest⟩ = none := heq
      rw [ih ray s e hfr acc closest hinv, bestT_cons]
      rcases hinv with ⟨hacc, hclo⟩ | ⟨r, hacc, hclo, -⟩
      · subst hacc
        have hfull : o.hit ray (⟨s, e⟩ : Interval) = none := by
          rw [← hclo]
          exact heqn
        have hc : candT ray ⟨s, e⟩ o = none := by
          rw [candT, hfull]
          rfl
        rw [hc, optMin_none_left]
      · subst hacc
        subst hclo
        cases heq2 : o.hit ray (⟨s, e⟩ : Interval) with
        | none =>
          have hc : candT ray ⟨s, e⟩ o = none := by
            rw [candT, heq2]
            rfl
          rw [hc, optMin_none_left]
        | some rec2 =>
          have hge : r.t ≤ rec2.t := by
            by_contra hlt
            push_neg at hlt
            have hltE : ((rec2.t : ℝ) : EReal) < ((r.t : ℝ) : EReal) :=
              EReal.coe_lt_coe_iff.2 hlt
            have hstab := hfo.stable ray s e ((r.t : ℝ) : EReal) rec2 heq2
              hltE hce
            rw [heqn] at hstab
            cases hstab
          have hc : candT ray ⟨s, e⟩ o = some rec2.t := by
            rw [candT, heq2]
            rfl
          rw [hc]
          show optMin (some r.t) (bestT rest ray ⟨s, e⟩) =
            optMin (some r.t) (optMin (some rec2.t) (bestT rest ray ⟨s, e⟩))
          rw [optMin_absorb _ _ _ hge]

/-- `HittableList::hit` over trait objects computes the least hit parameter
over the list at the original query interval. -/
theorem hlistHit_bestT (objs : List HObj) (hf : ∀ o ∈ objs, Faithful o)
    (ray : Ray) (I : Interval) :
    Option.map HitRecord.t (hlistHit objs ray I) = bestT objs ray I := by
  rw [hlistHit, hlistScan_bestT objs ray I.start I.end_ hf none I.end_
    (Or.inl ⟨rfl, rfl⟩)]
  rw [show Option.map HitRecord.t (none : Option HitRecord) = none from rfl,
    optMin_none_left]

theorem ereal_mul_coe_mono (x y : EReal) (c : ℝ) (hc : 0 ≤ c) (h : x ≤ y) :
    x * (c : EReal) ≤ y * (c : EReal) :=
  mul_le_mul_of_nonneg_right h (by exact_mod_cast hc)

theorem ereal_mul_coe_anti (x y : EReal) (c : ℝ) (hc : c ≤ 0) (h : x ≤ y) :
    y * (c : EReal) ≤ x * (c : EReal) := by
  have h1 : x * ((-c : ℝ) : EReal) ≤ y * ((-c : ℝ) : EReal) :=
    mul_le_mul_of_nonneg_right h (by exact_mod_cast neg_nonneg.2 hc)
  rw [EReal.coe_neg, mul_neg, mul_neg] at h1
  exact EReal.neg_le_neg_iff.1 h1

/-- One slab-axis clip: enlarging the box's axis interval (and the running
interval) can only enlarge the clipped interval, provided the inner box's
axis is ordered. -/
theorem slabAxis_sub (b b' : BoundingBox) (ray : Ray) (i : Fin 3)
    (hio : (b.intervals i).start ≤ (b.intervals i).end_)
    (hsub : (b.intervals i).subI (b'.intervals i))
    (t t' : Interval) (hts : t.subI t') :
    (b.slabAxis ray t i).subI (b'.slabAxis ray t' i) := by
  obtain ⟨hlo, hhi⟩ := hsub
  set adinv := (1.0 : ℝ) / ray.direction.get i with hadv
  set oi : EReal := ((ray.origin.get i : ℝ) : EReal) with hoi
  have hd0 : ((b.intervals i).start - oi) ≤ ((b.intervals i).end_ - oi) :=
    EReal.sub_le_sub hio (le_refl _)
  have hdlo : ((b'.intervals i).start - oi) ≤ ((b.intervals i).start - oi) :=
    EReal.sub_le_sub hlo (le_refl _)
  have hdhi : ((b.intervals i).end_ - oi) ≤ ((b'.intervals i).end_ - oi) :=
    EReal.sub_le_sub hhi (le_refl _)
  rcases le_total (0 : ℝ) adinv with hpos | hneg
  · have h01 : ((b.intervals i).start - oi) * (adinv : EReal) ≤
        ((b.intervals i).end_ - oi) * (adinv : EReal) :=
      ereal_mul_coe_mono _ _ _ hpos hd0
    have ht0 : ((b'.intervals i).start - oi) * (adinv : EReal) ≤
        ((b.intervals i).start - oi) * (adinv : EReal) :=
      ereal_mul_coe_mono _ _ _ hpos hdlo
    have ht1 : ((b.intervals i).end_ - oi) * (adinv : EReal) ≤
        ((b'.intervals i).end_ - oi) * (adinv : EReal) :=
      ereal_mul_coe_mono _ _ _ hpos hdhi
    constructor
    · show max t'.start (min (((b'.intervals i).start - oi) * (adinv : EReal))
          (((b'.intervals i).end_ - oi) * (adinv : EReal))) ≤
        max t.start (min (((b.intervals i).start - oi) * (adinv : EReal))
          (((b.intervals i).end_ - oi) * (adinv : EReal)))
      refine max_le_max hts.1 ?_
      rw [min_eq_left h01]
      exact le_trans (min_le_left _ _) ht0
    · show min t.end_ (max (((b.intervals i).start - oi) * (adinv : EReal))
          (((b.intervals i).end_ - oi) * (adinv : EReal))) ≤
        min t'.end_ (max (((b'.intervals i).start - oi) * (adinv : EReal))
          (((b'.intervals i).end_ - oi) * (adinv : EReal)))
      refine min_le_min hts.2 ?_
      rw [max_eq_right h01]
      exact le_trans ht1 (le_max_right _ _)
  · have h01 : ((b.intervals i).end_ - oi) * (adinv : EReal) ≤
        ((b.intervals i).start - oi) * (adinv : EReal) :=
      ereal_mul_coe_anti _ _ _ hneg hd0
    have ht0 : ((b.intervals i).start - oi) * (adinv : EReal) ≤
        ((b'.intervals i).start - oi) * (adinv : EReal) :=
      ereal_mul_coe_anti _ _ _ hneg hdlo
    have ht1 : ((b'.intervals i).end_ - oi) * (adinv : EReal) ≤
        ((b.intervals i).end_ - oi) * (adinv : EReal) :=
      ereal_mul_coe_anti _ _ _ hneg hdhi
    constructor
    · show max t'.start (min (((b'.intervals i).start - oi) * (adinv : EReal))
          (((b'.intervals i).end_ - oi) * (adinv : EReal))) ≤
        max t.start (min (((b.intervals i).start - oi) * (adinv : EReal))
          (((b.intervals i).end_ - oi) * (adinv : EReal)))
      refine max_le_max hts.1 ?_
      rw [min_eq_right h01]
      exact le_trans (min_le_right _ _) ht1
    · show min t.end_ (max (((b.intervals i).start - oi) * (adinv : EReal))
          (((b.intervals i).end_ - oi) * (adinv : EReal))) ≤
        min t'.end_ (max (((b'.intervals i).start - oi) * (adinv : EReal))
          (((b'.intervals i).end_ - oi) * (adinv : EReal)))
      refine min_le_min hts.2 ?_
      rw [max_eq_left h01]
      exact le_trans ht0 (le_max_left _ _)

theorem subI_size_le (a b : Interval) (h : a.subI b) : a.size ≤ b.size :=
  EReal.sub_le_sub h.2 h.1

theorem slabHit_true_iff (b : BoundingBox) (ray : Ray) (t : Interval) :
    b.slabHit ray t = true ↔
      (¬((b.slabAxis ray t 0).size ≤ 0) ∧
       ¬((b.slabAxis ray t 1).size ≤ 0) ∧
       ¬((b.slabAxis ray t 2).size ≤ 0)) := by
  rw [BoundingBox.slabHit]
  by_cases h0 : (b.slabAxis ray t 0).size ≤ 0
  · simp [h0]
  · by_cases h1 : (b.slabAxis ray t 1).size ≤ 0
    · simp [h0, h1]
    · by_cases h2 : (b.slabAxis ray t 2).size ≤ 0
      · simp [h0, h1, h2]
      · simp [h0, h1, h2]

/-- Slab-test monotonicity: a box containing an ordered box passes the slab
test whenever the inner box does. -/
theorem slabHit_mono (b b' : BoundingBox) (ray : Ray) (t : Interval)
    (hord : ∀ i : Fin 3, (b.intervals i).start ≤ (b.intervals i).end_)
    (hsub : b.subBox b') (h : b.slabHit ray t = true) :
    b'.slabHit ray t = true := by
  rw [slabHit_true_iff] at h ⊢
  obtain ⟨h0, h1, h2⟩ := h
  have hs0 : (b.slabAxis ray t 0).subI (b'.slabAxis ray t 0) :=
    slabAxis_sub b b' ray 0 (hord 0) (hsub 0) t t ⟨le_refl _, le_refl _⟩
  have hs1 : (b.slabAxis ray t 1).subI (b'.slabAxis ray t 1) :=
    slabAxis_sub b b' ray 1 (hord 1) (hsub 1) t t ⟨le_refl _, le_refl _⟩
  have hs2 : (b.slabAxis ray t 2).subI (b'.slabAxis ray t 2) :=
    slabAxis_sub b b' ray 2 (hord 2) (hsub 2) t t ⟨le_refl _, le_refl _⟩
  refine ⟨fun hc => h0 ?_, fun hc => h1 ?_, fun hc => h2 ?_⟩
  · exact le_trans (subI_size_le _ _ hs0) hc
  · exact le_trans (subI_size_le _ _ hs1) hc
  · exact le_trans (subI_size_le _ _ hs2) hc

theorem fromPair_super_left (a b : Interval) :
    a.subI (Interval.fromPair a b) :=
  ⟨min_le_left _ _, le_max_left _ _⟩

theorem fromPair_super_right (a b : Interval) :
    b.subI (Interval.fromPair a b) :=
  ⟨min_le_right _ _, le_max_right _ _⟩

theorem expand_super (i : Interval) (d : ℝ) (hd : 0 ≤ d) :
    i.subI (i.expand d) := by
  constructor
  · show i.start - (d : EReal) ≤ i.start
    calc i.start - (d : EReal) ≤ i.start - ((0 : ℝ) : EReal) :=
          EReal.sub_le_sub (le_refl _) (by exact_mod_cast hd)
    _ = i.start := by
        rw [show ((0 : ℝ) : EReal) = 0 from rfl, sub_zero]
  · show i.end_ ≤ i.end_ + (d : EReal)
    calc i.end_ = i.end_ + ((0 : ℝ) : EReal) := by
          rw [show ((0 : ℝ) : EReal) = 0 from rfl, add_zero]
    _ ≤ i.end_ + (d : EReal) :=
          add_le_add_left (by exact_mod_cast hd) _

theorem padMin_axis_super (i : Interval) :
    i.subI (if i.size < ((0.0001 : ℝ) : EReal) then i.expand 0.0001 else i) := by
  split
  · exact expand_super i 0.0001 (by norm_num)
  · exact ⟨le_refl _, le_refl _⟩

theorem padMin_super (b : BoundingBox) : b.subBox b.padMin :=
  fun i => padMin_axis_super (b.intervals i)

theorem new_axis (x y z : Interval) (i : Fin 3) :
    (BoundingBox.new x y z).intervals i =
      if ((![x, y, z] : Fin 3 → Interval) i).size < ((0.0001 : ℝ) : EReal) then
        (![x, y, z] i).expand 0.0001
      else ![x, y, z] i := rfl

theorem subI_trans {a b c : Interval} (h1 : a.subI b) (h2 : b.subI c) :
    a.subI c :=
  ⟨le_trans h2.1 h1.1, le_trans h1.2 h2.2⟩

theorem fromBoxes_axis_super (a b : BoundingBox) (i : Fin 3) :
    (Interval.fromPair (a.intervals i) (b.intervals i)).subI
      ((BoundingBox.fromBoxes a b).intervals i) := by
  fin_cases i
  · exact padMin_axis_super (Interval.fromPair (a.intervals 0) (b.intervals 0))
  · exact padMin_axis_super (Interval.fromPair (a.intervals 1) (b.intervals 1))
  · exact padMin_axis_super (Interval.fromPair (a.intervals 2) (b.intervals 2))

theorem fromBoxes_super_left (a b : BoundingBox) :
    a.subBox (BoundingBox.fromBoxes a b) := fun i =>
  subI_trans (fromPair_super_left _ _) (fromBoxes_axis_super a b i)

theorem fromBoxes_super_right (a b : BoundingBox) :
    b.subBox (BoundingBox.fromBoxes a b) := fun i =>
  subI_trans (fromPair_super_right _ _) (fromBoxes_axis_super a b i)

theorem foldl_boxes_super_acc : ∀ (l : List HObj) (acc : BoundingBox),
    acc.subBox (l.foldl (fun a o => BoundingBox.fromBoxes a o.bound) acc) := by
  intro l
  induction l with
  | nil => intro acc; exact subBox_refl acc
  | cons o rest ih =>
    intro acc
    rw [List.foldl_cons]
    exact subBox_trans (fromBoxes_super_left acc o.bound) (ih _)

theorem foldl_boxes_contains_mem : ∀ (l : List HObj) (acc : BoundingBox)
    (o : HObj), o ∈ l →
    o.bound.subBox (l.foldl (fun a o => BoundingBox.fromBoxes a o.bound) acc) := by
  intro l
  induction l with
  | nil => intro acc o ho; cases ho
  | cons o2 rest ih =>
    intro acc o ho
    rw [List.foldl_cons]
    rcases List.mem_cons.1 ho with rfl | ho2
    · exact subBox_trans (fromBoxes_super_right acc o.bound)
        (foldl_boxes_super_acc rest _)
    · exact ih _ o ho2

theorem objectsBounds_contains (objs : List HObj) (o : HObj) (ho : o ∈ objs) :
    o.bound.subBox (objectsBounds objs) :=
  foldl_boxes_contains_mem objs BoundingBox.empty o ho

theorem expand_ordered (i : Interval) (d : ℝ) (hd : 0 ≤ d)
    (h : i.start ≤ i.end_) :
    (i.expand d).start ≤ (i.expand d).end_ :=
  le_trans (expand_super i d hd).1 (le_trans h (expand_super i d hd).2)

theorem fromPair_ordered (a b : Interval) (hb : b.start ≤ b.end_) :
    (Interval.fromPair a b).start ≤ (Interval.fromPair a b).end_ :=
  le_trans (min_le_right _ _) (le_trans hb (le_max_right _ _))

theorem fromBoxes_ordered (a b : BoundingBox)
    (hb : ∀ i : Fin 3, (b.intervals i).start ≤ (b.intervals i).end_)
    (i : Fin 3) :
    ((BoundingBox.fromBoxes a b).intervals i).start ≤
      ((BoundingBox.fromBoxes a b).intervals i).end_ := by
  have hp : ∀ j : Fin 3, (Interval.fromPair (a.intervals j)
      (b.intervals j)).start ≤
      (Interval.fromPair (a.intervals j) (b.intervals j)).end_ :=
    fun j => fromPair_ordered _ _ (hb j)
  have key : ∀ x : Interval, x.start ≤ x.end_ →
      (if x.size < ((0.0001 : ℝ) : EReal) then x.expand 0.0001 else x).start ≤
      (if x.size < ((0.0001 : ℝ) : EReal) then x.expand 0.0001 else x).end_ := by
    intro x hx
    split
    · exact expand_ordered x 0.0001 (by norm_num) hx
    · exact hx
  fin_cases i
  · exact key _ (hp 0)
  · exact key _ (hp 1)
  · exact key _ (hp 2)

theorem foldl_boxes_ordered : ∀ (l : List HObj),
    (∀ o ∈ l, ∀ i : Fin 3,
      ((o.bound.intervals i).start ≤ (o.bound.intervals i).end_)) →
    l ≠ [] → ∀ (acc : BoundingBox) (i : Fin 3),
    (((l.foldl (fun a o => BoundingBox.fromBoxes a o.bound) acc).intervals
        i).start ≤
      ((l.foldl (fun a o => BoundingBox.fromBoxes a o.bound) acc).intervals
        i).end_) := by
  intro l
  induction l with
  | nil => intro _ hne; exact absurd rfl hne
  | cons o rest ih =>
    intro hord _ acc i
    rw [List.foldl_cons]
    cases rest with
    | nil =>
      rw [List.foldl_nil]
      exact fromBoxes_ordered acc o.bound
        (hord o (List.mem_cons_self o _)) i
    | cons o2 rest2 =>
      refine ih (fun o3 h3 => hord o3 (List.mem_cons_of_mem _ h3)) ?_ _ i
      intro hc
      cases hc

theorem objectsBounds_ordered (objs : List HObj)
    (hord : ∀ o ∈ objs, ∀ i : Fin 3,
      (o.bound.intervals i).start ≤ (o.bound.intervals i).end_)
    (hne : objs ≠ []) (i : Fin 3) :
    ((objectsBounds objs).intervals i).start ≤
      ((objectsBounds objs).intervals i).end_ :=
  foldl_boxes_ordered objs hord hne BoundingBox.empty i

/-- The leaf objects of a built `BoundNode` tree, in traversal order. -/
def BTree.leaves : BTree → List HObj
  | .leaf o => [o]
  | .node _ left right => left.leaves ++ right.leaves

/-- Structural well-formedness of a built tree: every stored box contains
the boxes of all leaves below it. -/
def BTreeWF : BTree → Prop
  | .leaf _ => True
  | .node bounds left right =>
      BTreeWF left ∧ BTreeWF right ∧
      ∀ o ∈ left.leaves ++ right.leaves, o.bound.subBox bounds

theorem combineHits_map_t (a b : Option HitRecord) :
    Option.map HitRecord.t (combineHits a b) =
      optMin (Option.map HitRecord.t a) (Option.map HitRecord.t b) := by
  cases a with
  | none => cases b <;> rfl
  | some ra =>
    cases b with
    | none => rfl
    | some rb =>
      rw [combineHits]
      split
      · show some ra.t = some (min ra.t rb.t)
        rw [min_eq_left (by assumption : ra.t < rb.t).le]
      · show some rb.t = some (min ra.t rb.t)
        rw [min_eq_right (not_lt.1 (by assumption))]

theorem bestT_append (xs ys : List HObj) (ray : Ray) (I : Interval) :
    bestT (xs ++ ys) ray I = optMin (bestT xs ray I) (bestT ys ray I) := by
  induction xs with
  | nil =>
    rw [List.nil_append]
    exact (optMin_none_left _).symm
  | cons x xs ih =>
    rw [List.cons_append, bestT_cons, bestT_cons, ih, optMin_assoc]

theorem bestT_of_all_none (objs : List HObj) (ray : Ray) (I : Interval)
    (h : ∀ o ∈ objs, o.hit ray I = none) : bestT objs ray I = none := by
  induction objs with
  | nil => rfl
  | cons o rest ih =>
    rw [bestT_cons, candT, h o (List.mem_cons_self o rest)]
    rw [show Option.map HitRecord.t none = none from rfl, optMin_none_left]
    exact ih (fun o2 h2 => h o2 (List.mem_cons_of_mem _ h2))

/-- `BoundNode::hit` computes the least hit parameter over the leaves under
the node, for well-formed trees of faithful objects. -/
theorem btHit_bestT : ∀ (bt : BTree), BTreeWF bt →
    (∀ o ∈ bt.leaves, Faithful o) → ∀ (ray : Ray) (I : Interval),
    Option.map HitRecord.t (btHit bt ray I) = bestT bt.leaves ray I := by
  intro bt
  induction bt with
  | leaf o =>
    intro _ _ ray I
    rw [btHit]
    rw [show BTree.leaves (BTree.leaf o) = [o] from rfl, bestT_cons,
      show bestT [] ray I = none from rfl, optMin_none_right]
    rfl
  | node bounds left right ihl ihr =>
    intro hwf hf ray I
    obtain ⟨hwl, hwr, hcont⟩ := hwf
    have hfl : ∀ o ∈ left.leaves, Faithful o := fun o ho =>
      hf o (by
        rw [show BTree.leaves (BTree.node bounds left right) =
          left.leaves ++ right.leaves from rfl]
        exact List.mem_append_left _ ho)
    have hfr : ∀ o ∈ right.leaves, Faithful o := fun o ho =>
      hf o (by
        rw [show BTree.leaves (BTree.node bounds left right) =
          left.leaves ++ right.leaves from rfl]
        exact List.mem_append_right _ ho)
    rw [btHit, show BTree.leaves (BTree.node bounds left right) =
      left.leaves ++ right.leaves from rfl]
    by_cases hs : bounds.slabHit ray I = true
    · rw [if_pos hs, combineHits_map_t, ihl hwl hfl ray I, ihr hwr hfr ray I,
        bestT_append]
    · rw [if_neg hs]
      refine (bestT_of_all_none _ ray I ?_).symm
      intro o ho
      cases heq : o.hit ray I with
      | none => rfl
      | some rec =>
        exfalso
        apply hs
        have hof : Faithful o := hf o (by
          rw [show BTree.leaves (BTree.node bounds left right) =
            left.leaves ++ right.leaves from rfl]
          exact ho)
        exact slabHit_mono o.bound bounds ray I hof.ordered (hcont o ho)
          (hof.box ray I rec heq)

theorem fromObjects_spec_aux : ∀ (n : ℕ) (objects : List HObj),
    objects.length ≤ n → ∀ bt, fromObjects objects = some bt →
    BTreeWF bt ∧ ∀ o, o ∈ bt.leaves ↔ o ∈ objects := by
  intro n
  induction n with
  | zero =>
    intro objects hlen bt hbt
    have hnil : objects = [] := List.length_eq_zero.1 (Nat.le_zero.1 hlen)
    subst hnil
    simp [fromObjects] at hbt
  | succ n ih =>
    intro objects hlen bt hbt
    rcases objects with _ | ⟨a, _ | ⟨b, _ | ⟨c, rest⟩⟩⟩
    · simp [fromObjects] at hbt
    · simp only [fromObjects] at hbt
      cases hbt
      refine ⟨⟨trivial, trivial, ?_⟩, ?_⟩
      · intro o ho
        have hoa : o = a := by
          rw [show BTree.leaves (BTree.leaf a) = [a] from rfl] at ho
          simpa using ho
        subst hoa
        exact objectsBounds_contains [o] o (List.mem_singleton_self o)
      · intro o
        show o ∈ [a] ++ [a] ↔ o ∈ [a]
        simp
    · simp only [fromObjects] at hbt
      cases hbt
      refine ⟨⟨trivial, trivial, ?_⟩, ?_⟩
      · intro o ho
        have hoab : o = a ∨ o = b := by
          rw [show BTree.leaves (BTree.leaf a) = [a] from rfl,
            show BTree.leaves (BTree.leaf b) = [b] from rfl] at ho
          simpa using ho
        rcases hoab with rfl | rfl
        · exact objectsBounds_contains [o, b] o (by simp)
        · exact objectsBounds_contains [a, o] o (by simp)
      · intro o
        show o ∈ [a] ++ [b] ↔ o ∈ [a, b]
        simp
    · rw [fromObjects] at hbt
      cases heql : fromObjects (((a :: b :: c :: rest).mergeSort
          (bvhLe (objectsBounds (a :: b :: c :: rest)).longestAxis)).take
          ((a :: b :: c :: rest).length / 2)) with
      | none => rw [heql] at hbt; cases hbt
      | some L =>
        cases heqr : fromObjects (((a :: b :: c :: rest).mergeSort
            (bvhLe (objectsBounds (a :: b :: c :: rest)).longestAxis)).drop
            ((a :: b :: c :: rest).length / 2)) with
        | none => rw [heql, heqr] at hbt; cases hbt
        | some R =>
          rw [heql, heqr] at hbt
          cases hbt
          have hlenL : (((a :: b :: c :: rest).mergeSort
              (bvhLe (objectsBounds (a :: b :: c :: rest)).longestAxis)).take
              ((a :: b :: c :: rest).length / 2)).length ≤ n := by
            simp only [List.length_take, List.length_mergeSort,
              List.length_cons] at *
            omega
          have hlenR : (((a :: b :: c :: rest).mergeSort
              (bvhLe (objectsBounds (a :: b :: c :: rest)).longestAxis)).drop
              ((a :: b :: c :: rest).length / 2)).length ≤ n := by
            simp only [List.length_drop, List.length_mergeSort,
              List.length_cons] at *
            omega
          obtain ⟨hwfL, hmemL⟩ := ih _ hlenL L heql
          obtain ⟨hwfR, hmemR⟩ := ih _ hlenR R heqr
          have hsortmem : ∀ o : HObj,
              o ∈ (a :: b :: c :: rest).mergeSort
                (bvhLe (objectsBounds (a :: b :: c :: rest)).longestAxis) ↔
              o ∈ a :: b :: c :: rest := fun o =>
            (List.mergeSort_perm (a :: b :: c :: rest) _).mem_iff
          have hmem2 : ∀ o : HObj,
              o ∈ L.leaves ++ R.leaves ↔ o ∈ a :: b :: c :: rest := by
            intro o
            rw [List.mem_append, hmemL o, hmemR o, ← List.mem_append,
              List.take_append_drop]
            exact hsortmem o
          refine ⟨⟨hwfL, hwfR, ?_⟩, hmem2⟩
          intro o ho
          exact objectsBounds_contains _ o ((hmem2 o).1 ho)

theorem fromObjects_spec (objects : List HObj) (bt : BTree)
    (h : fromObjects objects = some bt) :
    BTreeWF bt ∧ ∀ o, o ∈ bt.leaves ↔ o ∈ objects :=
  fromObjects_spec_aux objects.length objects (le_refl _) bt h

theorem HitOf_cons (o : HObj) (rest : List HObj) (ray : Ray) (I : Interval)
    (t : ℝ) :
    HitOf (o :: rest) ray I t ↔
      ((∃ rec, o.hit ray I = some rec ∧ rec.t = t) ∨ HitOf rest ray I t) := by
  constructor
  · rintro ⟨o2, ho2, rec, hrec, ht⟩
    rcases List.mem_cons.1 ho2 with rfl | h2
    · exact Or.inl ⟨rec, hrec, ht⟩
    · exact Or.inr ⟨o2, h2, rec, hrec, ht⟩
  · rintro (⟨rec, hrec, ht⟩ | ⟨o2, h2, rec, hrec, ht⟩)
    · exact ⟨o, List.mem_cons_self o rest, rec, hrec, ht⟩
    · exact ⟨o2, List.mem_cons_of_mem _ h2, rec, hrec, ht⟩

theorem bestT_spec : ∀ (objs : List HObj) (ray : Ray) (I : Interval),
    (bestT objs ray I = none → ∀ t, ¬HitOf objs ray I t) ∧
    (∀ tm, bestT objs ray I = some tm →
      HitOf objs ray I tm ∧ ∀ t, HitOf objs ray I t → tm ≤ t) := by
  intro objs
  induction objs with
  | nil =>
    intro ray I
    constructor
    · rintro - t ⟨o, ho, -⟩
      cases ho
    · intro tm h
      cases h
  | cons o rest ih =>
    intro ray I
    have hco : bestT (o :: rest) ray I =
        optMin (candT ray I o) (bestT rest ray I) := bestT_cons o rest ray I
    constructor
    · intro hnone t hhit
      rw [hco] at hnone
      rcases (HitOf_cons o rest ray I t).1 hhit with ⟨rec, hrec, ht⟩ | hrest
      · rw [candT, hrec] at hnone
        cases hb : bestT rest ray I <;> rw [hb] at hnone <;> cases hnone
      · cases hc : candT ray I o <;> cases hb : bestT rest ray I <;>
          rw [hc, hb] at hnone <;> try cases hnone
        exact (ih ray I).1 hb t hrest
    · intro tm hsome
      rw [hco] at hsome
      cases hc : candT ray I o with
      | none =>
        rw [hc, optMin_none_left] at hsome
        obtain ⟨hhit, hlb⟩ := (ih ray I).2 tm hsome
        refine ⟨(HitOf_cons _ _ _ _ _).2 (Or.inr hhit), ?_⟩
        intro t ht
        rcases (HitOf_cons o rest ray I t).1 ht with ⟨rec, hrec, hrt⟩ | hrest
        · rw [candT, hrec] at hc
          cases hc
        · exact hlb t hrest
      | some ta =>
        have hta : ∃ rec, o.hit ray I = some rec ∧ rec.t = ta := by
          rw [candT] at hc
          cases hhit : o.hit ray I with
          | none => rw [hhit] at hc; cases hc
          | some rec =>
            rw [hhit] at hc
            refine ⟨rec, rfl, ?_⟩
            injection hc
        cases hb : bestT rest ray I with
        | none =>
          rw [hc, hb] at hsome
          have htm : ta = tm := by injection hsome
          subst htm
          refine ⟨(HitOf_cons _ _ _ _ _).2 (Or.inl hta), ?_⟩
          intro t ht
          rcases (HitOf_cons o rest ray I t).1 ht with ⟨rec, hrec, hrt⟩ | hrest
          · obtain ⟨rec2, hrec2, hrt2⟩ := hta
            rw [hrec2] at hrec
            have : rec2 = rec := by injection hrec
            subst this
            rw [← hrt, hrt2]
          · exact absurd hrest ((ih ray I).1 hb t)
        | some tb =>
          rw [hc, hb] at hsome
          have htm : min ta tb = tm := by injection hsome
          obtain ⟨hhitb, hlbb⟩ := (ih ray I).2 tb hb
          constructor
          · rcases min_cases ta tb with ⟨hmin, -⟩ | ⟨hmin, -⟩
            · rw [← htm, hmin]
              exact (HitOf_cons _ _ _ _ _).2 (Or.inl hta)
            · rw [← htm, hmin]
              exact (HitOf_cons _ _ _ _ _).2 (Or.inr hhitb)
          · intro t ht
            rcases (HitOf_cons o rest ray I t).1 ht with
              ⟨rec, hrec, hrt⟩ | hrest
            · obtain ⟨rec2, hrec2, hrt2⟩ := hta
              rw [hrec2] at hrec
              have : rec2 = rec := by injection hrec
              subst this
              rw [← htm, ← hrt, hrt2]
              exact min_le_left _ _
            · rw [← htm]
              exact le_trans (min_le_right _ _) (hlbb t hrest)

theorem bestT_congr (objs1 objs2 : List HObj) (ray : Ray) (I : Interval)
    (hmem : ∀ o, o ∈ objs1 ↔ o ∈ objs2) :
    bestT objs1 ray I = bestT objs2 ray I := by
  have hHit : ∀ t, HitOf objs1 ray I t ↔ HitOf objs2 ray I t := by
    intro t
    constructor
    · rintro ⟨o, ho, rec, hrec, ht⟩
      exact ⟨o, (hmem o).1 ho, rec, hrec, ht⟩
    · rintro ⟨o, ho, rec, hrec, ht⟩
      exact ⟨o, (hmem o).2 ho, rec, hrec, ht⟩
  cases h1 : bestT objs1 ray I with
  | none =>
    cases h2 : bestT objs2 ray I with
    | none => rfl
    | some tm =>
      exfalso
      exact (bestT_spec objs1 ray I).1 h1 tm
        ((hHit tm).2 ((bestT_spec objs2 ray I).2 tm h2).1)
  | some tm =>
    cases h2 : bestT objs2 ray I with
    | none =>
      exfalso
      exact (bestT_spec objs2 ray I).1 h2 tm
        ((hHit tm).1 ((bestT_spec objs1 ray I).2 tm h1).1)
    | some tm2 =>
      obtain ⟨hh1, hlb1⟩ := (bestT_spec objs1 ray I).2 tm h1
      obtain ⟨hh2, hlb2⟩ := (bestT_spec objs2 ray I).2 tm2 h2
      have hle1 : tm ≤ tm2 := hlb1 tm2 ((hHit tm2).2 hh2)
      have hle2 : tm2 ≤ tm := hlb2 tm ((hHit tm).1 hh1)
      rw [le_antisymm hle1 hle2]

/-- Claim C1 (amended): for every list of trait objects that respect the
hit-interval contract (`Faithful`: hits lie inside the query interval,
narrowing only the interval end cannot create new or smaller hits, each
reported hit passes the object's own slab test, and the object's box is
ordered), the BVH built by `BoundNode::from_objects` returns a nearest hit
with exactly the same parameter `t` as the linear scan
`HittableList::hit`, for every ray and every query interval.  The
unrestricted claim is false: the standalone `Triangle::hit` ignores the
query interval, and the counterexample below exhibits a one-triangle scene
where the BVH reports no hit while the linear scan reports `t = 0`. -/
theorem bvh_matches_linear_scan (objects : List HObj)
    (hf : ∀ o ∈ objects, Faithful o) (bt : BTree)
    (hb : fromObjects objects = some bt) (ray : Ray) (I : Interval) :
    Option.map HitRecord.t (btHit bt ray I) =
      Option.map HitRecord.t (hlistHit objects ray I) := by
  obtain ⟨hwf, hmem⟩ := fromObjects_spec objects bt hb
  rw [btHit_bestT bt hwf (fun o ho => hf o ((hmem o).1 ho)) ray I,
    hlistHit_bestT objects hf ray I]
  exact bestT_congr _ _ ray I hmem

theorem ereal_sub_pos (a b : EReal) (hab : a < b) (ha : ⊥ < a) (hb : b < ⊤) :
    0 < b - a := by
  induction a using EReal.rec with
  | h_bot => exact absurd ha (lt_irrefl _)
  | h_top => exact absurd hab (not_lt.2 le_top)
  | h_real ra =>
    induction b using EReal.rec with
    | h_bot => exact absurd hab (not_lt.2 bot_le)
    | h_top => exact absurd hb (lt_irrefl _)
    | h_real rb =>
      rw [← EReal.coe_sub, ← EReal.coe_zero, EReal.coe_lt_coe_iff]
      exact sub_pos.2 (EReal.coe_lt_coe_iff.1 hab)

/-- The record reported by the witness object: a hit at parameter `t = 1`. -/
def witnessRecord : HitRecord :=
  ⟨vec3 1 1 1, vec3 0 0 1, 1, false, 0, 0, Mat.invisible, vec3 0 0 0⟩

/-- The witness object's bounding box: `[0,2]` on every axis. -/
def witnessBox : BoundingBox :=
  ⟨fun _ => ⟨((0 : ℝ) : EReal), ((2 : ℝ) : EReal)⟩⟩

open Classical in
/-- A concrete interval-respecting trait object for the witness: it reports
the `t = 1` hit exactly on the ray from the origin along `(1,1,1)` when the
query interval strictly surrounds `1` (so the hit lies inside both the
interval and the box `[0,2]³`), and no hit otherwise. -/
def witnessObj : HObj :=
  ⟨fun ray I =>
    if ray.origin = vec3 0 0 0 ∧ ray.direction = vec3 1 1 1 ∧ I.surrounds 1
    then some witnessRecord else none,
    witnessBox⟩

theorem witnessObj_slab (I : Interval) (hs : I.surrounds 1) :
    witnessBox.slabHit ⟨vec3 0 0 0, vec3 1 1 1⟩ I = true := by
  have hget1 : ∀ i : Fin 3, (vec3 1 1 1).get i = 1 := by
    intro i
    fin_cases i <;> rfl
  have hget0 : ∀ i : Fin 3, (vec3 0 0 0).get i = 0 := by
    intro i
    fin_cases i <;> rfl
  have hsz : ∀ i : Fin 3,
      ¬((witnessBox.slabAxis ⟨vec3 0 0 0, vec3 1 1 1⟩ I i).size ≤ 0) := by
    intro i
    simp only [BoundingBox.slabAxis]
    rw [show witnessBox.intervals i =
      ⟨((0 : ℝ) : EReal), ((2 : ℝ) : EReal)⟩ from rfl]
    rw [show (⟨vec3 0 0 0, vec3 1 1 1⟩ : Ray).direction.get i =
      (vec3 1 1 1).get i from rfl, hget1 i]
    rw [show (⟨vec3 0 0 0, vec3 1 1 1⟩ : Ray).origin.get i =
      (vec3 0 0 0).get i from rfl, hget0 i]
    simp only [Interval.new, Interval.size, ← EReal.coe_sub, ← EReal.coe_mul,
      ← ereal_coe_min, ← ereal_coe_max]
    norm_num
    have h1 : max I.start (0 : EReal) < ((1 : ℝ) : EReal) :=
      max_lt hs.1 (by
        rw [← EReal.coe_zero]
        exact EReal.coe_lt_coe_iff.2 (by norm_num))
    have h2 : ((1 : ℝ) : EReal) < min I.end_ ((2 : ℝ) : EReal) :=
      lt_min hs.2 (EReal.coe_lt_coe_iff.2 (by norm_num))
    exact ereal_sub_pos _ _ (lt_trans h1 h2)
      (lt_of_lt_of_le (by
        rw [← EReal.coe_zero]
        exact EReal.bot_lt_coe 0) (le_max_right _ _))
      (lt_of_le_of_lt (min_le_right _ _) (EReal.coe_lt_top 2))
  rw [BoundingBox.slabHit]
  rw [if_neg (hsz 0), if_neg (hsz 1), if_neg (hsz 2)]

theorem witnessObj_faithful : Faithful witnessObj := by
  refine ⟨?_, ?_, ?_, ?_, ?_, ?_⟩
  · intro ray I rec h
    by_cases hc : ray.origin = vec3 0 0 0 ∧ ray.direction = vec3 1 1 1 ∧
        I.surrounds 1
    · have he : witnessObj.hit ray I = some witnessRecord := by
        simp only [witnessObj]
        rw [if_pos hc]
      rw [he] at h
      have hrec : witnessRecord = rec := by injection h
      rw [← hrec]
      exact ⟨le_of_lt hc.2.2.1, le_of_lt hc.2.2.2⟩
    · have he : witnessObj.hit ray I = none := by
        simp only [witnessObj]
        rw [if_neg hc]
      rw [he] at h
      cases h
  · intro ray s e e2 hle h
    by_cases hc : ray.origin = vec3 0 0 0 ∧ ray.direction = vec3 1 1 1 ∧
        (⟨s, e2⟩ : Interval).surrounds 1
    · exfalso
      have hc2 : ray.origin = vec3 0 0 0 ∧ ray.direction = vec3 1 1 1 ∧
          (⟨s, e⟩ : Interval).surrounds 1 :=
        ⟨hc.1, hc.2.1, hc.2.2.1, lt_of_lt_of_le hc.2.2.2 hle⟩
      have he : witnessObj.hit ray ⟨s, e⟩ = some witnessRecord := by
        simp only [witnessObj]
        rw [if_pos hc2]
      rw [he] at h
      cases h
    · simp only [witnessObj]
      rw [if_neg hc]
  · intro ray s e e2 rec h hlt hle
    by_cases hc : ray.origin = vec3 0 0 0 ∧ ray.direction = vec3 1 1 1 ∧
        (⟨s, e⟩ : Interval).surrounds 1
    · have he : witnessObj.hit ray ⟨s, e⟩ = some witnessRecord := by
        simp only [witnessObj]
        rw [if_pos hc]
      rw [he] at h
      have hrec : witnessRecord = rec := by injection h
      have ht1 : ((1 : ℝ) : EReal) < e2 := by
        rw [← hrec] at hlt
        exact hlt
      have hc2 : ray.origin = vec3 0 0 0 ∧ ray.direction = vec3 1 1 1 ∧
          (⟨s, e2⟩ : Interval).surrounds 1 := ⟨hc.1, hc.2.1, hc.2.2.1, ht1⟩
      rw [← hrec]
      simp only [witnessObj]
      rw [if_pos hc2]
    · have he : witnessObj.hit ray ⟨s, e⟩ = none := by
        simp only [witnessObj]
        rw [if_neg hc]
      rw [he] at h
      cases h
  · intro ray s e e2 rec2 hle h
    by_cases hc : ray.origin = vec3 0 0 0 ∧ ray.direction = vec3 1 1 1 ∧
        (⟨s, e2⟩ : Interval).surrounds 1
    · have he2 : witnessObj.hit ray ⟨s, e2⟩ = some witnessRecord := by
        simp only [witnessObj]
        rw [if_pos hc]
      rw [he2] at h
      have hrec : witnessRecord = rec2 := by injection h
      have hc2 : ray.origin = vec3 0 0 0 ∧ ray.direction = vec3 1 1 1 ∧
          (⟨s, e⟩ : Interval).surrounds 1 :=
        ⟨hc.1, hc.2.1, hc.2.2.1, lt_of_lt_of_le hc.2.2.2 hle⟩
      refine ⟨witnessRecord, ?_, ?_⟩
      · simp only [witnessObj]
        rw [if_pos hc2]
      · rw [hrec]
    · have he2 : witnessObj.hit ray ⟨s, e2⟩ = none := by
        simp only [witnessObj]
        rw [if_neg hc]
      rw [he2] at h
      cases h
  · intro ray I rec h
    by_cases hc : ray.origin = vec3 0 0 0 ∧ ray.direction = vec3 1 1 1 ∧
        I.surrounds 1
    · obtain ⟨ro, rd⟩ := ray
      obtain ⟨ho, hd, hs⟩ := hc
      simp only at ho hd
      subst ho
      subst hd
      exact witnessObj_slab I hs
    · have he : witnessObj.hit ray I = none := by
        simp only [witnessObj]
        rw [if_neg hc]
      rw [he] at h
      cases h
  · intro i
    exact EReal.coe_le_coe_iff.2 (by norm_num)

/-- Claim C1 witness: the amended theorem applied to a singleton scene
holding the interval-respecting `witnessObj`, queried with the ray from the
origin along `(1,1,1)` over the interval `(1/2, 3/2)` — on which the object
genuinely hits, so the `Faithful` hypotheses are exercised at a real hit:
both traversals report the hit parameter `t = 1`. -/
theorem bvh_matches_linear_scan_witness :
    ∃ bt, fromObjects [witnessObj] = some bt ∧
      Option.map HitRecord.t (btHit bt ⟨vec3 0 0 0, vec3 1 1 1⟩
          (Interval.new ((1 / 2 : ℝ) : EReal) ((3 / 2 : ℝ) : EReal))) =
        Option.map HitRecord.t (hlistHit [witnessObj]
          ⟨vec3 0 0 0, vec3 1 1 1⟩
          (Interval.new ((1 / 2 : ℝ) : EReal) ((3 / 2 : ℝ) : EReal))) ∧
      Option.map HitRecord.t (hlistHit [witnessObj]
          ⟨vec3 0 0 0, vec3 1 1 1⟩
          (Interval.new ((1 / 2 : ℝ) : EReal) ((3 / 2 : ℝ) : EReal))) =
        some 1 := by
  have hfrom : fromObjects [witnessObj] =
      some (BTree.node (objectsBounds [witnessObj]) (BTree.leaf witnessObj)
        (BTree.leaf witnessObj)) := by
    simp [fromObjects]
  have hhit : witnessObj.hit ⟨vec3 0 0 0, vec3 1 1 1⟩
      (Interval.fromRange ((1 / 2 : ℝ) : EReal) ((3 / 2 : ℝ) : EReal)) =
      some witnessRecord := by
    simp only [witnessObj]
    rw [if_pos ⟨trivial, trivial, EReal.coe_lt_coe_iff.2 (by norm_num),
      EReal.coe_lt_coe_iff.2 (by norm_num)⟩]
  have hscan : Option.map HitRecord.t (hlistHit [witnessObj]
      ⟨vec3 0 0 0, vec3 1 1 1⟩
      (Interval.new ((1 / 2 : ℝ) : EReal) ((3 / 2 : ℝ) : EReal))) =
      some 1 := by
    have hstart : (Interval.new ((1 / 2 : ℝ) : EReal)
        ((3 / 2 : ℝ) : EReal)).start = ((1 / 2 : ℝ) : EReal) := rfl
    have hend : (Interval.new ((1 / 2 : ℝ) : EReal)
        ((3 / 2 : ℝ) : EReal)).end_ = ((3 / 2 : ℝ) : EReal) := rfl
    simp only [hlistHit, hstart, hend, hlistScan, hhit]
    rfl
  refine ⟨_, hfrom, ?_, hscan⟩
  refine bvh_matches_linear_scan _ ?_ _ hfrom _ _
  intro o ho
  have ho2 : o = witnessObj := by simpa using ho
  subst ho2
  exact witnessObj_faithful

/-- Claim C1 counterexample: a scene holding the single standalone triangle
`(0,0,0),(1,0,0),(0,1,0)` queried with the ray from `(41/4, 41/4, 10)` along
`(−10,−10,−10)` over the interval `(0.0001, 1/2)`.  The BVH built from the
scene slab-tests its root box (x-axis `[0,1]`): the clipped interval is
`[0.925, 0.5]` with negative size, so `BoundNode::hit` answers no hit.  The
linear scan hands the same interval to `Triangle::hit`, which ignores it and
reports its unconditional `t = 0` hit (the barycentric test at
`p = direction + origin = (1/4, 1/4, 0)` passes).  The two traversals
disagree on this scene. -/
theorem bvh_linear_scan_counterexample :
    ∃ bt,
      fromObjects [(triangleNew (vec3 0 0 0, vec3 1 0 0, vec3 0 1 0)
          Mat.invisible).toHObj] = some bt ∧
      Option.map HitRecord.t (btHit bt
          ⟨vec3 (41 / 4) (41 / 4) 10, vec3 (-10) (-10) (-10)⟩
          (Interval.new ((0.0001 : ℝ) : EReal) ((1 / 2 : ℝ) : EReal))) =
        none ∧
      Option.map HitRecord.t (hlistHit [(triangleNew
          (vec3 0 0 0, vec3 1 0 0, vec3 0 1 0) Mat.invisible).toHObj]
          ⟨vec3 (41 / 4) (41 / 4) 10, vec3 (-10) (-10) (-10)⟩
          (Interval.new ((0.0001 : ℝ) : EReal) ((1 / 2 : ℝ) : EReal))) =
        some 0 := by
  have hfrom : fromObjects [(triangleNew (vec3 0 0 0, vec3 1 0 0, vec3 0 1 0)
      Mat.invisible).toHObj] = some (BTree.node
        (objectsBounds [(triangleNew (vec3 0 0 0, vec3 1 0 0, vec3 0 1 0)
          Mat.invisible).toHObj])
        (BTree.leaf ((triangleNew (vec3 0 0 0, vec3 1 0 0, vec3 0 1 0)
          Mat.invisible).toHObj))
        (BTree.leaf ((triangleNew (vec3 0 0 0, vec3 1 0 0, vec3 0 1 0)
          Mat.invisible).toHObj))) := by
    simp [fromObjects]
  have hax0 : (objectsBounds [(triangleNew (vec3 0 0 0, vec3 1 0 0,
      vec3 0 1 0) Mat.invisible).toHObj]).intervals 0 =
      ⟨((0 : ℝ) : EReal), ((1 : ℝ) : EReal)⟩ := by
    simp only [objectsBounds, Node.toHObj, triangleNew, nodeBound,
      List.foldl_cons, List.foldl_nil, BoundingBox.fromBoxes,
      BoundingBox.fromPoints, BoundingBox.new, BoundingBox.padMin,
      BoundingBox.empty, Interval.empty, Interval.fromPair, Interval.new,
      Interval.expand, Interval.size, vec3, Matrix.cons_val_zero,
      Matrix.cons_val_one, Matrix.head_cons, Matrix.cons_val_two,
      Matrix.tail_cons, min_top_left, max_bot_left,
      ← EReal.coe_sub, ← EReal.coe_add, ← EReal.coe_neg,
      ← ereal_coe_min, ← ereal_coe_max, EReal.coe_lt_coe_iff]
    norm_num
    rw [← EReal.coe_one]
    exact EReal.coe_le_coe_iff.2 (by norm_num)
  have hsize : ((objectsBounds [(triangleNew (vec3 0 0 0, vec3 1 0 0,
      vec3 0 1 0) Mat.invisible).toHObj]).slabAxis
      ⟨vec3 (41 / 4) (41 / 4) 10, vec3 (-10) (-10) (-10)⟩
      (Interval.new ((0.0001 : ℝ) : EReal) ((1 / 2 : ℝ) : EReal)) 0).size ≤
      0 := by
    simp only [BoundingBox.slabAxis, hax0]
    simp only [Interval.new, Interval.size, Vec3.get, vec3,
      ← EReal.coe_sub, ← EReal.coe_mul, ← ereal_coe_min, ← ereal_coe_max,
      ← EReal.coe_zero, EReal.coe_le_coe_iff]
    norm_num [min_def, max_def]
  have hslab : (objectsBounds [(triangleNew (vec3 0 0 0, vec3 1 0 0,
      vec3 0 1 0) Mat.invisible).toHObj]).slabHit
      ⟨vec3 (41 / 4) (41 / 4) 10, vec3 (-10) (-10) (-10)⟩
      (Interval.new ((0.0001 : ℝ) : EReal) ((1 / 2 : ℝ) : EReal)) =
      false := by
    simp only [BoundingBox.slabHit]
    rw [if_pos hsize]
  have htri : nodeHit (triangleNew (vec3 0 0 0, vec3 1 0 0, vec3 0 1 0)
      Mat.invisible) ⟨vec3 (41 / 4) (41 / 4) 10, vec3 (-10) (-10) (-10)⟩
      (Interval.fromRange ((0.0001 : ℝ) : EReal) ((1 / 2 : ℝ) : EReal)) =
      some (HitRecord.new
        ⟨vec3 (41 / 4) (41 / 4) 10, vec3 (-10) (-10) (-10)⟩ 0.0
        (vec3 (-10) (-10) (-10) + vec3 (41 / 4) (41 / 4) 10)
        (Vec3.cross (vec3 1 0 0 - vec3 0 0 0) (vec3 0 1 0 - vec3 0 0 0))
        Mat.invisible) := by
    simp only [triangleNew, nodeHit, triangleHit]
    split
    · rfl
    · rename_i hcond
      exfalso
      apply hcond
      norm_num [Vec3.cross, Vec3.dot, Vec3.length_squared, vec3]
  refine ⟨_, hfrom, ?_, ?_⟩
  · simp only [btHit, hslab]
    simp
  · have hstart : (Interval.new ((0.0001 : ℝ) : EReal)
        ((1 / 2 : ℝ) : EReal)).start = ((0.0001 : ℝ) : EReal) := rfl
    have hend : (Interval.new ((0.0001 : ℝ) : EReal)
        ((1 / 2 : ℝ) : EReal)).end_ = ((1 / 2 : ℝ) : EReal) := rfl
    have hobj : ((triangleNew (vec3 0 0 0, vec3 1 0 0, vec3 0 1 0)
        Mat.invisible).toHObj).hit = nodeHit (triangleNew
        (vec3 0 0 0, vec3 1 0 0, vec3 0 1 0) Mat.invisible) := rfl
    simp only [hlistHit, hstart, hend, hlistScan, hobj, htri]
    simp [HitRecord.new]
    norm_num

end

end RayTracer
